import Mathlib

/-
Verification of the device-configuration resolver
(`indigo_specifics/resolve_device_config.py`): a shallow embedding of its
JSON data model, comment stripper, normalizer, semantic differ, `$import`
resolver and version reconciler, together with theorems about them.
-/

namespace ZwaveResolve

/--
JSON-like values as handled by the script: Python's `None`, `bool`, `int`,
`str`, `list` and `dict` after `json.loads`. Mappings keep insertion order,
as Python dicts do; Python guarantees their keys are duplicate-free (the
`keysNodup` predicate below). Scalars are opaque to every algorithm in the
source (they are only copied and compared), so `Int` stands in for Python
numbers; Python's cross-type numeric equality (`True == 1`) is outside the
model.
-/
inductive Json where
  | null
  | bool (b : Bool)
  | num (n : Int)
  | str (s : String)
  | arr (elems : List Json)
  | obj (entries : List (String × Json))

/-- Structural induction principle for `Json` with membership hypotheses for
the list-shaped constructors. -/
theorem Json.indOn {P : Json → Prop}
    (h0 : P .null) (h1 : ∀ b, P (.bool b)) (h2 : ∀ n, P (.num n))
    (h3 : ∀ s, P (.str s))
    (h4 : ∀ xs, (∀ x ∈ xs, P x) → P (.arr xs))
    (h5 : ∀ kvs, (∀ p ∈ kvs, P p.2) → P (.obj kvs)) :
    ∀ j, P j :=
  @Json.rec P (fun xs => ∀ x ∈ xs, P x) (fun kvs => ∀ p ∈ kvs, P p.2)
    (fun p => P p.2)
    h0 h1 h2 h3 h4 h5
    (fun x hx => absurd hx (List.not_mem_nil x))
    (fun _ _ hh ht x hx => by
      rcases List.mem_cons.mp hx with h | h
      · exact h ▸ hh
      · exact ht x h)
    (fun p hp => nomatch hp)
    (fun _ _ hh ht p hp => by
      rcases List.mem_cons.mp hp with h | h
      · exact h ▸ hh
      · exact ht p h)
    (fun _ _ hv => hv)

mutual
/-- Structural equality of JSON values, modelling Python `==` on parsed JSON
trees (dict comparison is order-insensitive in Python, but every comparison
in the source happens after `normalize_json` has key-sorted all dicts, where
list equality agrees with dict equality for duplicate-free keys). -/
def jeq : Json → Json → Bool
  | .null, .null => true
  | .bool a, .bool b => a == b
  | .num a, .num b => a == b
  | .str a, .str b => a == b
  | .arr a, .arr b => jeqList a b
  | .obj a, .obj b => jeqEntries a b
  | _, _ => false

def jeqList : List Json → List Json → Bool
  | [], [] => true
  | a :: as1, b :: bs => jeq a b && jeqList as1 bs
  | _, _ => false

def jeqEntries : List (String × Json) → List (String × Json) → Bool
  | [], [] => true
  | (k1, v1) :: as1, (k2, v2) :: bs => k1 == k2 && jeq v1 v2 && jeqEntries as1 bs
  | _, _ => false
end

theorem jeqList_iff (xs : List Json)
    (ih : ∀ x ∈ xs, ∀ b, jeq x b = true ↔ x = b) :
    ∀ ys, jeqList xs ys = true ↔ xs = ys := by
  induction xs with
  | nil => intro ys; cases ys <;> simp [jeqList]
  | cons a as1 ihl =>
    intro ys
    cases ys with
    | nil => simp [jeqList]
    | cons b bs =>
      have ha := ih a (List.mem_cons_self a as1) b
      have hrest := ihl (fun x hx => ih x (List.mem_cons_of_mem a hx)) bs
      simp [jeqList, ha, hrest]

theorem jeqEntries_iff (xs : List (String × Json))
    (ih : ∀ p ∈ xs, ∀ b, jeq p.2 b = true ↔ p.2 = b) :
    ∀ ys, jeqEntries xs ys = true ↔ xs = ys := by
  induction xs with
  | nil => intro ys; cases ys <;> simp [jeqEntries]
  | cons a as1 ihl =>
    intro ys
    cases ys with
    | nil => cases a; simp [jeqEntries]
    | cons b bs =>
      cases a with
      | mk k1 v1 =>
        cases b with
        | mk k2 v2 =>
          have ha := ih (k1, v1) (List.mem_cons_self _ as1) v2
          have hrest := ihl (fun p hp => ih p (List.mem_cons_of_mem _ hp)) bs
          simp [jeqEntries, ha, hrest]

theorem jeq_iff : ∀ a b : Json, jeq a b = true ↔ a = b := by
  intro a
  induction a using Json.indOn with
  | h0 => intro b; cases b <;> simp [jeq]
  | h1 x => intro b; cases b <;> simp [jeq]
  | h2 x => intro b; cases b <;> simp [jeq]
  | h3 x => intro b; cases b <;> simp [jeq]
  | h4 xs ih =>
    intro b
    cases b <;> simp [jeq]
    exact jeqList_iff xs ih _
  | h5 kvs ih =>
    intro b
    cases b <;> simp [jeq]
    exact jeqEntries_iff kvs ih _

instance : DecidableEq Json := fun a b => decidable_of_iff (jeq a b = true) (jeq_iff a b)

/-- Python `dict[key]` / `key in dict`: first (and, for duplicate-free keys,
only) binding of `k`. -/
def lookupKV : List (String × Json) → String → Option Json
  | [], _ => none
  | (k1, v1) :: rest, k => if k1 = k then some v1 else lookupKV rest k

/-- Python `key in dict`. -/
def hasKeyKV (l : List (String × Json)) (k : String) : Bool :=
  (lookupKV l k).isSome

/-- Python `dict[key] = value`: replace the binding in place if the key is
present, else append a new binding at the end (insertion order). -/
def setKV : List (String × Json) → String → Json → List (String × Json)
  | [], k, v => [(k, v)]
  | (k1, v1) :: rest, k, v =>
    if k1 = k then (k, v) :: rest else (k1, v1) :: setKV rest k v

/-- The keys of a mapping, in insertion order. -/
def keysOf (l : List (String × Json)) : List String :=
  l.map Prod.fst

/-- Python dicts never hold the same key twice. -/
def keysNodup (l : List (String × Json)) : Prop :=
  (keysOf l).Nodup

/-- Lexicographic order on character lists by code point, the order Python
uses when `sorted` compares the (distinct) string keys of a dict. -/
def charsLtB : List Char → List Char → Bool
  | [], [] => false
  | [], _ :: _ => true
  | _ :: _, [] => false
  | c :: cs, d :: ds =>
    if c.toNat < d.toNat then true
    else if d.toNat < c.toNat then false
    else charsLtB cs ds

/-- String strict order by code points (Python `<` on `str`). -/
def strLtB (a b : String) : Bool := charsLtB a.data b.data

/-- String weak order (Python `<=` on `str`). -/
def strLeB (a b : String) : Bool := !(strLtB b a)

theorem charsLtB_trichot :
    ∀ a b, charsLtB a b = true ∨ a = b ∨ charsLtB b a = true := by
  intro a
  induction a with
  | nil => intro b; cases b <;> simp [charsLtB]
  | cons c cs ih =>
    intro b
    cases b with
    | nil => simp [charsLtB]
    | cons d ds =>
      rcases Nat.lt_trichotomy c.toNat d.toNat with h | h | h
      · left; simp [charsLtB, h]
      · have hc : c = d := Char.ext (UInt32.ext h)
        rcases ih ds with h1 | h1 | h1
        · left; simp [charsLtB, h, hc, h1]
        · right; left; simp [hc, h1]
        · right; right; simp [charsLtB, h, hc, h1]
      · right; right; simp [charsLtB, h, Nat.lt_asymm h]

theorem charsLtB_asymm :
    ∀ a b, charsLtB a b = true → charsLtB b a = false := by
  intro a
  induction a with
  | nil => intro b; cases b <;> simp [charsLtB]
  | cons c cs ih =>
    intro b
    cases b with
    | nil => simp [charsLtB]
    | cons d ds =>
      intro h
      by_cases h1 : c.toNat < d.toNat
      · simp [charsLtB, h1, Nat.lt_asymm h1]
      · by_cases h2 : d.toNat < c.toNat
        · simp [charsLtB, h1, h2] at h
        · simp [charsLtB, h1, h2] at h ⊢
          exact ih ds h

theorem charsLtB_trans :
    ∀ a b c, charsLtB a b = true → charsLtB b c = true → charsLtB a c = true := by
  intro a
  induction a with
  | nil =>
    intro b c hab hbc
    cases b with
    | nil => simp [charsLtB] at hab
    | cons d ds => cases c with
      | nil => simp [charsLtB] at hbc
      | cons e es => simp [charsLtB]
  | cons x xs ih =>
    intro b c hab hbc
    cases b with
    | nil => simp [charsLtB] at hab
    | cons d ds =>
      cases c with
      | nil => simp [charsLtB] at hbc
      | cons e es =>
        by_cases h1 : x.toNat < d.toNat
        · by_cases h2 : d.toNat < e.toNat
          · simp [charsLtB, Nat.lt_trans h1 h2]
          · by_cases h3 : e.toNat < d.toNat
            · simp [charsLtB, h2, h3] at hbc
            · have : d.toNat = e.toNat := Nat.le_antisymm (Nat.le_of_not_lt h3) (Nat.le_of_not_lt h2)
              simp [charsLtB, this ▸ h1]
        · by_cases h1a : d.toNat < x.toNat
          · simp [charsLtB, h1, h1a] at hab
          · have hxd : x.toNat = d.toNat := Nat.le_antisymm (Nat.le_of_not_lt h1a) (Nat.le_of_not_lt h1)
            simp [charsLtB, h1, h1a] at hab
            by_cases h2 : d.toNat < e.toNat
            · simp [charsLtB, hxd ▸ h2]
            · by_cases h3 : e.toNat < d.toNat
              · simp [charsLtB, h2, h3] at hbc
              · simp [charsLtB, h2, h3] at hbc
                simp [charsLtB, hxd ▸ h2, hxd ▸ h3, ih ds es hab hbc]

theorem strLtB_trichot (a b : String) :
    strLtB a b = true ∨ a = b ∨ strLtB b a = true := by
  rcases charsLtB_trichot a.data b.data with h | h | h
  · exact Or.inl h
  · refine Or.inr (Or.inl ?_)
    cases a; cases b
    simp only [String.data] at h
    rw [h]
  · exact Or.inr (Or.inr h)

theorem strLtB_asymm (a b : String) (h : strLtB a b = true) : strLtB b a = false :=
  charsLtB_asymm a.data b.data h

theorem strLtB_trans (a b c : String) (hab : strLtB a b = true)
    (hbc : strLtB b c = true) : strLtB a c = true :=
  charsLtB_trans a.data b.data c.data hab hbc

/-- Order on mapping entries used for key sorting: compare keys by code
point, the comparison Python's `sorted` makes on a dict's items (keys are
distinct, so the value components never get compared). -/
def entryLE (p q : String × Json) : Prop :=
  strLeB p.1 q.1 = true

instance : DecidableRel entryLE := fun p q => by
  unfold entryLE; infer_instance

instance : IsTotal (String × Json) entryLE where
  total p q := by
    unfold entryLE strLeB
    by_cases h : strLtB q.1 p.1 = true
    · right; simp [strLtB_asymm _ _ h]
    · left
      simp only [Bool.not_eq_true] at h
      simp [h]

instance : IsTrans (String × Json) entryLE where
  trans p q r hpq hqr := by
    unfold entryLE strLeB at hpq hqr ⊢
    simp only [Bool.not_eq_true'] at hpq hqr ⊢
    by_contra hra
    simp only [Bool.not_eq_false] at hra
    rcases strLtB_trichot q.1 p.1 with h | h | h
    · rw [hpq] at h; cases h
    · rw [h] at hqr; rw [hqr] at hra; cases hra
    · have := strLtB_trans _ _ _ hra h
      rw [hqr] at this; cases this

/-- Key-sorting of a mapping's entries (`sorted(obj.items())` in the
source; any stable comparison sort agrees with it on distinct keys). -/
def sortEntries (l : List (String × Json)) : List (String × Json) :=
  List.insertionSort entryLE l

namespace JsonDiffer

mutual
/--
`JsonDiffer.normalize_json`: sort every mapping's entries by key and recurse;
sequences keep their element order; scalars are unchanged.  The source sorts
`obj.items()` before normalizing each value; sorting compares only the
(distinct) keys, so normalizing the values first and then key-sorting, as
done here for structural recursion, builds the same list.
-/
def normalize_json : Json → Json
  | .null => .null
  | .bool b => .bool b
  | .num n => .num n
  | .str s => .str s
  | .arr xs => .arr (normalize_json_list xs)
  | .obj kvs => .obj (sortEntries (normalize_json_entries kvs))

def normalize_json_list : List Json → List Json
  | [] => []
  | x :: xs => normalize_json x :: normalize_json_list xs

def normalize_json_entries : List (String × Json) → List (String × Json)
  | [] => []
  | (k, v) :: rest => (k, normalize_json v) :: normalize_json_entries rest
end

/--
`JsonDiffer.json_objects_equal`: semantic equality is structural equality of
the normalized forms (`normalize_json(a) == normalize_json(b)` in the
source; Python's order-insensitive dict `==` coincides with list equality
here because both sides are key-sorted and Python dicts are
duplicate-free).
-/
def json_objects_equal (a b : Json) : Bool :=
  jeq (normalize_json a) (normalize_json b)

end JsonDiffer

/-- One lowercase hex digit. -/
def hexDigit (n : Nat) : Char :=
  if n < 10 then Char.ofNat ('0'.toNat + n) else Char.ofNat ('a'.toNat + (n - 10))

/-- Four lowercase hex digits, as in Python's `'\\u%04x'`. -/
def hex4 (n : Nat) : List Char :=
  [hexDigit (n / 4096 % 16), hexDigit (n / 256 % 16), hexDigit (n / 16 % 16),
   hexDigit (n % 16)]

/-- How `json.dumps` (with its default `ensure_ascii=True`) escapes one
character inside a string literal: printable ASCII except `"` and `\\` is
kept, the short escapes are used where they exist, everything else becomes
`\\uXXXX` (a surrogate pair beyond the BMP). -/
def pyEscapeChar (c : Char) : List Char :=
  if c = '"' then ['\\', '"']
  else if c = '\\' then ['\\', '\\']
  else if c = '\n' then ['\\', 'n']
  else if c = '\t' then ['\\', 't']
  else if c = '\r' then ['\\', 'r']
  else if c = '\x08' then ['\\', 'b']
  else if c = '\x0c' then ['\\', 'f']
  else if c.toNat < 0x20 || c.toNat > 0x7e then
    if c.toNat ≥ 0x10000 then
      let v := c.toNat - 0x10000
      '\\' :: 'u' :: hex4 (0xd800 + v / 0x400) ++ '\\' :: 'u' :: hex4 (0xdc00 + v % 0x400)
    else '\\' :: 'u' :: hex4 c.toNat
  else [c]

/-- `json.dumps` on a string value. -/
def pyEncodeString (s : String) : String :=
  ⟨'"' :: (s.data.flatMap pyEscapeChar) ++ ['"']⟩

mutual
/-- `json.dumps(x)` with default (compact) separators `', '` and `': '`,
as the differ uses for its `Old:`/`New:` lines. -/
def pyDumps : Json → String
  | .null => "null"
  | .bool true => "true"
  | .bool false => "false"
  | .num n => toString n
  | .str s => pyEncodeString s
  | .arr [] => "[]"
  | .arr (x :: xs) => "[" ++ pyDumpsList (x :: xs) ++ "]"
  | .obj [] => "\x7b\x7d"
  | .obj (p :: ps) => "\x7b" ++ pyDumpsEntries (p :: ps) ++ "\x7d"

def pyDumpsList : List Json → String
  | [] => ""
  | [x] => pyDumps x
  | x :: y :: xs => pyDumps x ++ ", " ++ pyDumpsList (y :: xs)

def pyDumpsEntries : List (String × Json) → String
  | [] => ""
  | [(k, v)] => pyEncodeString k ++ ": " ++ pyDumps v
  | (k, v) :: q :: ps => pyEncodeString k ++ ": " ++ pyDumps v ++ ", " ++ pyDumpsEntries (q :: ps)
end

/-- A run of spaces. -/
def spaces (n : Nat) : String :=
  ⟨List.replicate n ' '⟩

mutual
/-- `json.dumps(x, indent=2)`, at nesting depth `level`: items one per
line, indented two spaces per level, item separator `','`, key separator
`': '`; empty containers stay on one line. -/
def pyDumpsInd : Nat → Json → String
  | _, .null => "null"
  | _, .bool true => "true"
  | _, .bool false => "false"
  | _, .num n => toString n
  | _, .str s => pyEncodeString s
  | _, .arr [] => "[]"
  | level, .arr (x :: xs) =>
    "[\n" ++ pyDumpsIndList (level + 1) (x :: xs) ++ "\n" ++ spaces (2 * level) ++ "]"
  | _, .obj [] => "\x7b\x7d"
  | level, .obj (p :: ps) =>
    "\x7b\n" ++ pyDumpsIndEntries (level + 1) (p :: ps) ++ "\n" ++ spaces (2 * level) ++ "\x7d"

def pyDumpsIndList : Nat → List Json → String
  | _, [] => ""
  | level, [x] => spaces (2 * level) ++ pyDumpsInd level x
  | level, x :: y :: xs =>
    spaces (2 * level) ++ pyDumpsInd level x ++ ",\n" ++ pyDumpsIndList level (y :: xs)

def pyDumpsIndEntries : Nat → List (String × Json) → String
  | _, [] => ""
  | level, [(k, v)] => spaces (2 * level) ++ pyEncodeString k ++ ": " ++ pyDumpsInd level v
  | level, (k, v) :: q :: ps =>
    spaces (2 * level) ++ pyEncodeString k ++ ": " ++ pyDumpsInd level v ++ ",\n" ++
      pyDumpsIndEntries level (q :: ps)
end

namespace JsonDiffer

/-- `f"{path}.{key}" if path else key`: Python's truthiness on strings makes
the empty path special. -/
def joinPath (path k : String) : String :=
  if path = "" then k else path ++ "." ++ k

/-- `isinstance(x, (dict, list))`. -/
def isContainer : Json → Bool
  | .obj _ => true
  | .arr _ => true
  | _ => false

/-- First loop of `generate_diff_report`: keys of `old` missing from `new`. -/
def removedKeys (o n : List (String × Json)) (path : String) : List String :=
  (o.filter (fun p => !hasKeyKV n p.1)).map
    (fun p => "- Removed key: " ++ joinPath path p.1)

/-- Second loop of `generate_diff_report`: keys of `new` missing from `old`. -/
def addedKeys (o n : List (String × Json)) (path : String) : List String :=
  (n.filter (fun p => !hasKeyKV o p.1)).map
    (fun p => "+ Added key: " ++ joinPath path p.1)

mutual
/--
`JsonDiffer.generate_diff_report`: for two mappings, report removed keys,
then added keys, then walk the keys present in both (third loop); for two
sequences, report a length change and/or a whole-array content change; any
other combination of shapes (including a mapping against a sequence) falls
through both `isinstance` tests and produces no entries.
-/
def generate_diff_report : Json → Json → String → List String
  | .obj o, .obj n, path =>
    removedKeys o n path ++ addedKeys o n path ++ diffCommonKeys o n path
  | .arr o, .arr n, path =>
    (if o.length ≠ n.length then
      ["  Modified array length at " ++ path ++ ": " ++ toString o.length ++
        " -> " ++ toString n.length]
     else []) ++
    (if !(json_objects_equal (.arr o) (.arr n)) then
      ["  Modified array content at " ++ path]
     else [])
  | _, _, _ => []

/-- Third loop of `generate_diff_report`: for every key of `old` that is
also in `new` and whose values are not semantically equal, recurse when both
values are containers, else emit the three `Modified` lines with both raw
values serialized by `json.dumps`. -/
def diffCommonKeys : List (String × Json) → List (String × Json) → String → List String
  | [], _, _ => []
  | (k, v) :: rest, n, path =>
    (match lookupKV n k with
     | none => []
     | some w =>
       if json_objects_equal v w then []
       else if isContainer v && isContainer w then
         generate_diff_report v w (joinPath path k)
       else
         ["  Modified: " ++ joinPath path k,
          "    - Old: " ++ pyDumps v,
          "    + New: " ++ pyDumps w]) ++
    diffCommonKeys rest n path
end

end JsonDiffer

namespace JsonCommentStripper

/-- Characters removed by Python's `str.rstrip()` (ASCII whitespace; the
exotic Unicode spaces Python also strips never survive line splitting in
this pipeline and are immaterial to the claims). -/
def isSpacePy (c : Char) : Bool :=
  c = ' ' || c = '\t' || c = '\n' || c = '\r' || c = '\x0b' || c = '\x0c'

/-- Python `str.rstrip()`: drop trailing whitespace. -/
def rstripChars (l : List Char) : List Char :=
  (l.reverse.dropWhile isSpacePy).reverse

/--
The per-line scanner of `JsonCommentStripper.strip_comments`: walk the
characters with an `in_string` flag (toggled by an unescaped `"`), an
`escaped` flag (set by a backslash, suppressing interpretation of the next
character), and report the index of the first `//` found outside a string,
if any.  `i` is the index of the head of `rest` in the whole line.
-/
def scanComment : List Char → Bool → Bool → Nat → Option Nat
  | [], _, _, _ => none
  | c :: rest, inString, escaped, i =>
    if escaped then scanComment rest inString false (i + 1)
    else if c = '\\' then scanComment rest inString true (i + 1)
    else if c = '"' then scanComment rest (!inString) escaped (i + 1)
    else if !inString && c = '/' && rest.head? = some '/' then some i
    else scanComment rest inString escaped (i + 1)

/-- One line of `strip_comments`: truncate at the first out-of-string `//`
(then `rstrip`), else leave the line unchanged.  Every line starts with
`in_string = false` and `escaped = false`. -/
def stripLine (l : List Char) : List Char :=
  match scanComment l false false 0 with
  | some p => rstripChars (l.take p)
  | none => l

/-- Python `text.split('\n')`. -/
def splitLinesChars : List Char → List (List Char)
  | [] => [[]]
  | c :: rest =>
    if c = '\n' then [] :: splitLinesChars rest
    else
      match splitLinesChars rest with
      | [] => [[c]]
      | l :: ls => (c :: l) :: ls

/-- Python `'\n'.join(lines)`. -/
def joinLinesChars : List (List Char) → List Char
  | [] => []
  | [l] => l
  | l :: ls => l ++ '\n' :: joinLinesChars ls

/-- `JsonCommentStripper.strip_comments`: process the text line by line
(state does not persist across lines) and rejoin with newlines. -/
def strip_comments (text : String) : String :=
  ⟨joinLinesChars ((splitLinesChars text.data).map stripLine)⟩

/-- The lines of a text, as the source's `text.split('\n')` produces them. -/
def textLines (text : String) : List (List Char) :=
  splitLinesChars text.data

end JsonCommentStripper

/-- Filesystem paths, as the component lists `pathlib.Path` exposes to this
script (`.parent` drops the last component, `/` appends components). -/
abbrev FsPath := List String

/-- Split a character list at every occurrence of `sep`. -/
def splitOnChar (sep : Char) : List Char → List (List Char)
  | [] => [[]]
  | c :: rest =>
    if c = sep then [] :: splitOnChar sep rest
    else
      match splitOnChar sep rest with
      | [] => [[c]]
      | l :: ls => (c :: l) :: ls

/-- Python `s.split(sep, 1)` when `sep` occurs: the part before the first
occurrence and everything after it; `none` when `sep` does not occur. -/
def splitFirst (sep : Char) : List Char → Option (List Char × List Char)
  | [] => none
  | c :: rest =>
    if c = sep then some ([], rest)
    else (splitFirst sep rest).map (fun p => (c :: p.1, p.2))

/-- The path components a relative path string contributes when joined onto
a `pathlib.Path` with `/`. -/
def pathSegsOfChars (cs : List Char) : FsPath :=
  (splitOnChar '/' cs).map (fun l => (⟨l⟩ : String))

/-- The in-memory filesystem a resolution run reads: parsed JSON documents
by path.  Loading is a pure lookup, which also makes the source's template
cache (a memoization of `load_json_file`) semantically transparent. -/
abbrev FileSystem := List (FsPath × Json)

def fsLookup : FileSystem → FsPath → Option Json
  | [], _ => none
  | (p, j) :: rest, q => if p = q then some j else fsLookup rest q

/-- The error outcomes of one resolution run (the source raises
`ValueError`/`TypeError`/`FileNotFoundError`/`KeyError`; the checker only
needs them distinguished).  `outOfFuel` is the fuel model's stand-in for
the unbounded recursion a cyclic import causes in the source. -/
inductive ResolveError where
  | importSyntax
  | importNotString
  | templateNotFound
  | templateNotMapping
  | keyNotFound
  | mergeConflict
  | outOfFuel
deriving DecidableEq, Repr

namespace DeviceConfigResolver

/--
`DeviceConfigResolver.resolve_import_path`: split the reference at the first
`#` into a path part and a key part (no `#` is a `ValueError`), then resolve
the path part: empty means the current file itself, a `~/` prefix is
relative to the base directory, anything else is relative to the current
file's directory.
-/
def resolve_import_path (importPath : String) (currentFile : FsPath)
    (baseDir : FsPath) : Except ResolveError (FsPath × String) :=
  match splitFirst '#' importPath.data with
  | none => .error .importSyntax
  | some (pathPart, keyPart) =>
    let key : String := ⟨keyPart⟩
    match pathPart with
    | [] => .ok (currentFile, key)
    | '~' :: '/' :: rest => .ok (baseDir ++ pathSegsOfChars rest, key)
    | other => .ok (currentFile.dropLast ++ pathSegsOfChars other, key)

/-- `DeviceConfigResolver.load_json_file` on the pure filesystem: the
comment-stripping and JSON parsing happen when `FileSystem` is populated
(they are verified separately); a missing file is `FileNotFoundError`. -/
def load_json_file (fs : FileSystem) (p : FsPath) : Except ResolveError Json :=
  match fsLookup fs p with
  | some j => .ok j
  | none => .error .templateNotFound

/-- `DeviceConfigResolver.get_template_value`: load (via the transparent
cache) the template file and look the key up at its top level.  A template
file whose top level is not a mapping has no keys to look up. -/
def get_template_value (fs : FileSystem) (templateFile : FsPath)
    (key : String) : Except ResolveError Json := do
  let templateData ← load_json_file fs templateFile
  match templateData with
  | .obj kvs =>
    match lookupKV kvs key with
    | some v => .ok v
    | none => .error .keyNotFound
  | _ => .error .templateNotMapping

mutual
/--
`DeviceConfigResolver.resolve_imports`: recursively expand every `$import`.
A mapping carrying `$import` resolves the reference, recursively resolves
the template value **with the template's file as the new current file**,
then either merges the sibling keys over a mapping result (siblings
recursively resolved **against the original current file**, importer wins)
or, for a non-mapping result, returns it as-is when there are no siblings
and fails with the merge-conflict `ValueError` otherwise.  Mappings without
`$import`, sequences and scalars resolve pointwise.  The `fuel` argument
(strictly decreasing on every call) makes the recursion structural; the
source recurses unboundedly on cyclic imports, which the model reports as
`outOfFuel`.
-/
def resolve_imports (fs : FileSystem) (base : FsPath) :
    Nat → Json → FsPath → Except ResolveError Json
  | 0, _, _ => .error .outOfFuel
  | fuel + 1, data, currentFile =>
    match data with
    | .obj kvs =>
      match lookupKV kvs "$import" with
      | some (.str importPath) => do
        let pk ← resolve_import_path importPath currentFile base
        let templateValue ← get_template_value fs pk.1 pk.2
        let resolvedTemplate ← resolve_imports fs base fuel templateValue pk.1
        match resolvedTemplate with
        | .obj tkvs => do
          let merged ← merge_overrides fs base fuel kvs tkvs currentFile
          pure (.obj merged)
        | other =>
          if kvs.length = 1 then pure other
          else .error .mergeConflict
      | some _ => .error .importNotString
      | none => do
        let rs ← resolve_entries fs base fuel kvs currentFile
        pure (.obj rs)
    | .arr xs => do
      let rs ← resolve_list fs base fuel xs currentFile
      pure (.arr rs)
    | prim => pure prim

/-- Pointwise resolution of a sequence (order and length preserved). -/
def resolve_list (fs : FileSystem) (base : FsPath) :
    Nat → List Json → FsPath → Except ResolveError (List Json)
  | 0, _, _ => .error .outOfFuel
  | _ + 1, [], _ => .ok []
  | fuel + 1, x :: xs, currentFile => do
    let v ← resolve_imports fs base fuel x currentFile
    let vs ← resolve_list fs base fuel xs currentFile
    pure (v :: vs)

/-- Pointwise resolution of a mapping's values (keys and order preserved). -/
def resolve_entries (fs : FileSystem) (base : FsPath) :
    Nat → List (String × Json) → FsPath → Except ResolveError (List (String × Json))
  | 0, _, _ => .error .outOfFuel
  | _ + 1, [], _ => .ok []
  | fuel + 1, (k, v) :: rest, currentFile => do
    let rv ← resolve_imports fs base fuel v currentFile
    let rs ← resolve_entries fs base fuel rest currentFile
    pure ((k, rv) :: rs)

/-- The merge loop of the `$import` branch: start from a copy of the
resolved template's entries and, walking the importing mapping's items in
order, resolve every non-`$import` value against the original current file
and write it into the copy (`result[k] = ...`). -/
def merge_overrides (fs : FileSystem) (base : FsPath) :
    Nat → List (String × Json) → List (String × Json) → FsPath →
    Except ResolveError (List (String × Json))
  | 0, _, _, _ => .error .outOfFuel
  | _ + 1, [], acc, _ => .ok acc
  | fuel + 1, (k, v) :: rest, acc, currentFile =>
    if k = "$import" then merge_overrides fs base fuel rest acc currentFile
    else do
      let rv ← resolve_imports fs base fuel v currentFile
      merge_overrides fs base fuel rest (setKV acc k rv) currentFile
end

/-- `DeviceConfigResolver.resolve_device_config`: load
`base/<manufacturer_id>/<device_filename>` and resolve all imports with the
device file as the starting current file. -/
def resolve_device_config (fs : FileSystem) (base : FsPath) (fuel : Nat)
    (manufacturerId deviceFilename : String) : Except ResolveError Json := do
  let deviceFile := base ++ [manufacturerId, deviceFilename]
  let deviceConfig ← load_json_file fs deviceFile
  resolve_imports fs base fuel deviceConfig deviceFile

end DeviceConfigResolver

/-- The two ways `process_device`'s reconciliation code can blow up on a
malformed existing artifact: `.get` on a non-dict (`AttributeError`) and
`+= 1` on a non-integer `vers` (`TypeError`). -/
inductive ProcError where
  | attrError
  | typeError
deriving DecidableEq, Repr

/-- What one `process_device` run does to the output artifact: leave it
alone because the resolved content is semantically unchanged, leave it
alone because the user declined the overwrite, or write `doc` (serialized
exactly as `text`) carrying version `version`. -/
inductive ProcResult where
  | unchanged
  | cancelled
  | written (doc : Json) (text : String) (version : Int)
deriving DecidableEq

/-- Splice the two metadata fields into a resolved mapping, in the source's
assignment order (`resolved['vers'] = ...` then `resolved['last_update'] =
...`). -/
def withMetadata (resolved : List (String × Json)) (vers lastUpdate : Json) :
    List (String × Json) :=
  setKV (setKV resolved "vers" vers) "last_update" lastUpdate

/--
`process_device`, its filesystem and console collaborators made explicit:
`resolvedConfig` is the fully resolved tree (a mapping), `existing` the
parsed previously persisted artifact if one exists, `now` the
`datetime.now().isoformat()` timestamp, `silentMode` the batch flag and
`confirmOverwrite` whether the interactive answer is `y`/`yes`.

With no previous artifact the document is written with `vers = 1`.  With
one, its `vers` (default 1) and `last_update` (default `now`) are spliced
into a comparison copy of the new document; semantic equality means no
write, otherwise the write (unconditional in silent mode, on confirmation
interactively) stores `vers` incremented by one.  The text written is
`json.dumps(doc, indent=2) + '\n'`.
-/
def process_device (resolvedConfig : List (String × Json)) (existing : Option Json)
    (now : String) (silentMode confirmOverwrite : Bool) :
    Except ProcError ProcResult :=
  match existing with
  | none =>
    let doc := withMetadata resolvedConfig (.num 1) (.str now)
    .ok (.written (.obj doc) (pyDumpsInd 0 (.obj doc) ++ "\n") 1)
  | some existingData =>
    match existingData with
    | .obj ekvs =>
      let existingVersion := (lookupKV ekvs "vers").getD (.num 1)
      let tempResolved := withMetadata resolvedConfig existingVersion
        ((lookupKV ekvs "last_update").getD (.str now))
      if JsonDiffer.json_objects_equal existingData (.obj tempResolved) then
        .ok .unchanged
      else if silentMode || confirmOverwrite then
        match existingVersion with
        | .num n =>
          let doc := withMetadata resolvedConfig (.num (n + 1)) (.str now)
          .ok (.written (.obj doc) (pyDumpsInd 0 (.obj doc) ++ "\n") (n + 1))
        | _ => .error .typeError
      else .ok .cancelled
    | _ => .error .attrError

/-- Decidable form of `keysNodup`: no key occurs twice in a mapping. -/
def keysNodupB : List (String × Json) → Bool
  | [] => true
  | (k, _) :: rest => !(hasKeyKV rest k) && keysNodupB rest

mutual
/-- Well-formed JSON values: every mapping anywhere in the tree has
duplicate-free keys, as every value produced by Python's `json.loads` (or
built from dicts) does. -/
def wfB : Json → Bool
  | .null => true
  | .bool _ => true
  | .num _ => true
  | .str _ => true
  | .arr xs => wfListB xs
  | .obj kvs => keysNodupB kvs && wfEntriesB kvs

def wfListB : List Json → Bool
  | [] => true
  | x :: xs => wfB x && wfListB xs

def wfEntriesB : List (String × Json) → Bool
  | [] => true
  | (_, v) :: rest => wfB v && wfEntriesB rest
end

mutual
/-- No mapping anywhere in the tree carries a `$import` key: what the spec
requires of every successfully resolved output. -/
def noImportB : Json → Bool
  | .null => true
  | .bool _ => true
  | .num _ => true
  | .str _ => true
  | .arr xs => noImportListB xs
  | .obj kvs => !(hasKeyKV kvs "$import") && noImportEntriesB kvs

def noImportListB : List Json → Bool
  | [] => true
  | x :: xs => noImportB x && noImportListB xs

def noImportEntriesB : List (String × Json) → Bool
  | [] => true
  | (_, v) :: rest => noImportB v && noImportEntriesB rest
end

mutual
/-- Modelled from the spec's words, as claim C9's right-hand side: two
values "agree up to reordering of Mapping keys at every depth" — scalars
are equal, sequences agree pointwise in order, and mappings bind exactly
the same keys to values that again agree, regardless of entry order. -/
def semEqB : Json → Json → Bool
  | .null, .null => true
  | .bool a, .bool b => a == b
  | .num a, .num b => a == b
  | .str a, .str b => a == b
  | .arr a, .arr b => semEqListB a b
  | .obj a, .obj b => semEqSubB a b && a.all (fun p => hasKeyKV b p.1) && b.all (fun p => hasKeyKV a p.1)
  | _, _ => false

def semEqListB : List Json → List Json → Bool
  | [], [] => true
  | x :: xs, y :: ys => semEqB x y && semEqListB xs ys
  | _, _ => false

def semEqSubB : List (String × Json) → List (String × Json) → Bool
  | [], _ => true
  | (k, v) :: rest, other =>
    (match lookupKV other k with
     | some w => semEqB v w
     | none => true) && semEqSubB rest other
end

/-- Whether a value is a Mapping (`isinstance(x, dict)`). -/
def isMapping : Json → Bool
  | .obj _ => true
  | _ => false

/-- The document a successful `process_device` run wrote, if any. -/
def writtenDoc : Except ProcError ProcResult → Option Json
  | .ok (.written doc _ _) => some doc
  | _ => none

/-- The version a successful `process_device` run stored, if it wrote. -/
def writtenVersion : Except ProcError ProcResult → Option Int
  | .ok (.written _ _ v) => some v
  | _ => none

/-- The exact text a successful `process_device` run wrote, if it wrote. -/
def writtenText : Except ProcError ProcResult → Option String
  | .ok (.written _ t _) => some t
  | _ => none

/-- A concrete corpus for witnesses: one template file offering a mapping
template `t`, a number `u`, a string `s` and a mapping `w` that itself
imports `u` by an empty-path (self-file) reference; and a device file that
also binds `u`, to a different number, so that reading `u` from the wrong
file is observable. -/
def exampleFS : FileSystem :=
  [(["base", "templates", "t.json"],
    .obj [("t", .obj [("a", .num 1), ("b", .num 2)]),
          ("u", .num 42),
          ("s", .str "hello"),
          ("w", .obj [("$import", .str "#u")])]),
   (["base", "0x027a", "dev.json"],
    .obj [("u", .num 7)])]

section AssocLemmas

theorem lookupKV_setKV_self (l : List (String × Json)) (k : String) (v : Json) :
    lookupKV (setKV l k v) k = some v := by
  induction l with
  | nil => simp [setKV, lookupKV]
  | cons p rest ih =>
    cases p with
    | mk k1 v1 =>
      by_cases h : k1 = k
      · simp [setKV, h, lookupKV]
      · simp [setKV, h, lookupKV, ih]

theorem lookupKV_setKV_ne (l : List (String × Json)) (k k2 : String) (v : Json)
    (h : k ≠ k2) : lookupKV (setKV l k v) k2 = lookupKV l k2 := by
  induction l with
  | nil => simp [setKV, lookupKV, h]
  | cons p rest ih =>
    cases p with
    | mk k1 v1 =>
      by_cases h1 : k1 = k
      · subst h1
        simp [setKV, lookupKV, h]
      · simp [setKV, h1, lookupKV, ih]

theorem setKV_append (l : List (String × Json)) (k : String) (v : Json)
    (h : hasKeyKV l k = false) : setKV l k v = l ++ [(k, v)] := by
  induction l with
  | nil => simp [setKV]
  | cons p rest ih =>
    cases p with
    | mk k1 v1 =>
      simp [hasKeyKV, lookupKV] at h
      by_cases h1 : k1 = k
      · subst h1; simp at h
      · simp [setKV, h1]
        exact ih (by simp [hasKeyKV]; split at h <;> simp_all)

theorem lookupKV_eq_none_iff (l : List (String × Json)) (k : String) :
    lookupKV l k = none ↔ k ∉ keysOf l := by
  induction l with
  | nil => simp [lookupKV, keysOf]
  | cons p rest ih =>
    cases p with
    | mk k1 v1 =>
      by_cases h : k1 = k
      · subst h; simp [lookupKV, keysOf]
      · simp [lookupKV, h, keysOf, ih, Ne.symm h]

theorem mem_of_lookupKV_eq_some {l : List (String × Json)} {k : String}
    {v : Json} (h : lookupKV l k = some v) : (k, v) ∈ l := by
  induction l with
  | nil => simp [lookupKV] at h
  | cons p rest ih =>
    cases p with
    | mk k1 v1 =>
      by_cases h1 : k1 = k
      · subst h1
        simp [lookupKV] at h
        simp [h]
      · simp [lookupKV, h1] at h
        exact List.mem_cons_of_mem _ (ih h)

theorem lookupKV_eq_some_of_mem {l : List (String × Json)} {k : String}
    {v : Json} (hnd : (keysOf l).Nodup) (h : (k, v) ∈ l) :
    lookupKV l k = some v := by
  induction l with
  | nil => simp at h
  | cons p rest ih =>
    cases p with
    | mk k1 v1 =>
      have hnd1 : k1 ∉ keysOf rest := (List.nodup_cons.mp hnd).1
      have hnd2 : (keysOf rest).Nodup := (List.nodup_cons.mp hnd).2
      rcases List.mem_cons.mp h with h1 | h1
      · cases h1
        simp [lookupKV]
      · have hk : k1 ≠ k := by
          intro he
          exact hnd1 (he ▸ List.mem_map_of_mem Prod.fst h1)
        simp [lookupKV, hk]
        exact ih hnd2 h1

end AssocLemmas

section ResolverLemmas

open DeviceConfigResolver

theorem resolve_imports_obj_eq (fs : FileSystem) (base : FsPath) (fuel : Nat)
    (kvs : List (String × Json)) (cf : FsPath) :
    resolve_imports fs base (fuel + 1) (.obj kvs) cf =
      (match lookupKV kvs "$import" with
      | some (.str importPath) => do
        let pk ← resolve_import_path importPath cf base
        let templateValue ← get_template_value fs pk.1 pk.2
        let resolvedTemplate ← resolve_imports fs base fuel templateValue pk.1
        match resolvedTemplate with
        | .obj tkvs => do
          let merged ← merge_overrides fs base fuel kvs tkvs cf
          pure (.obj merged)
        | other =>
          if kvs.length = 1 then pure other
          else .error .mergeConflict
      | some _ => .error .importNotString
      | none => do
        let rs ← resolve_entries fs base fuel kvs cf
        pure (.obj rs)) := rfl

theorem resolve_imports_arr_eq (fs : FileSystem) (base : FsPath) (fuel : Nat)
    (xs : List Json) (cf : FsPath) :
    resolve_imports fs base (fuel + 1) (.arr xs) cf = (do
      let rs ← resolve_list fs base fuel xs cf
      pure (.arr rs)) := rfl

theorem resolve_list_cons_eq (fs : FileSystem) (base : FsPath) (fuel : Nat)
    (x : Json) (xs : List Json) (cf : FsPath) :
    resolve_list fs base (fuel + 1) (x :: xs) cf = (do
      let v ← resolve_imports fs base fuel x cf
      let vs ← resolve_list fs base fuel xs cf
      pure (v :: vs)) := rfl

theorem resolve_entries_cons_eq (fs : FileSystem) (base : FsPath) (fuel : Nat)
    (k : String) (v : Json) (rest : List (String × Json)) (cf : FsPath) :
    resolve_entries fs base (fuel + 1) ((k, v) :: rest) cf = (do
      let rv ← resolve_imports fs base fuel v cf
      let rs ← resolve_entries fs base fuel rest cf
      pure ((k, rv) :: rs)) := rfl

theorem merge_overrides_cons_eq (fs : FileSystem) (base : FsPath) (fuel : Nat)
    (k : String) (v : Json) (rest acc : List (String × Json)) (cf : FsPath) :
    merge_overrides fs base (fuel + 1) ((k, v) :: rest) acc cf =
      (if k = "$import" then merge_overrides fs base fuel rest acc cf
      else do
        let rv ← resolve_imports fs base fuel v cf
        merge_overrides fs base fuel rest (setKV acc k rv) cf) := rfl

theorem resolve_imports_obj_noimp (fs : FileSystem) (base : FsPath) (fuel : Nat)
    {kvs : List (String × Json)} (cf : FsPath)
    (himp : lookupKV kvs "$import" = none) :
    resolve_imports fs base (fuel + 1) (.obj kvs) cf = (do
      let rs ← resolve_entries fs base fuel kvs cf
      pure (.obj rs)) := by
  rw [resolve_imports_obj_eq, himp]

theorem resolve_imports_obj_imp (fs : FileSystem) (base : FsPath) (fuel : Nat)
    {kvs : List (String × Json)} (cf : FsPath) {s : String}
    (himp : lookupKV kvs "$import" = some (.str s)) :
    resolve_imports fs base (fuel + 1) (.obj kvs) cf = (do
      let pk ← resolve_import_path s cf base
      let templateValue ← get_template_value fs pk.1 pk.2
      let resolvedTemplate ← resolve_imports fs base fuel templateValue pk.1
      match resolvedTemplate with
      | .obj tkvs => do
        let merged ← merge_overrides fs base fuel kvs tkvs cf
        pure (.obj merged)
      | other =>
        if kvs.length = 1 then pure other
        else .error .mergeConflict) := by
  rw [resolve_imports_obj_eq, himp]

theorem resolve_fuel_mono_all (fs : FileSystem) (base : FsPath) : ∀ fuel : Nat,
    (∀ d cf out, resolve_imports fs base fuel d cf = .ok out →
      resolve_imports fs base (fuel + 1) d cf = .ok out) ∧
    (∀ xs cf outs, resolve_list fs base fuel xs cf = .ok outs →
      resolve_list fs base (fuel + 1) xs cf = .ok outs) ∧
    (∀ kvs cf outs, resolve_entries fs base fuel kvs cf = .ok outs →
      resolve_entries fs base (fuel + 1) kvs cf = .ok outs) ∧
    (∀ rest acc cf out, merge_overrides fs base fuel rest acc cf = .ok out →
      merge_overrides fs base (fuel + 1) rest acc cf = .ok out) := by
  intro fuel
  induction fuel with
  | zero =>
    refine ⟨?_, ?_, ?_, ?_⟩ <;> intros <;> simp_all [resolve_imports,
      resolve_list, resolve_entries, merge_overrides]
  | succ fuel ih =>
    obtain ⟨ih1, ih2, ih3, ih4⟩ := ih
    refine ⟨?_, ?_, ?_, ?_⟩
    · intro d cf out h
      cases d with
      | null => exact h
      | bool b => exact h
      | num n => exact h
      | str s => exact h
      | arr xs =>
        rw [resolve_imports_arr_eq] at h
        rw [resolve_imports_arr_eq]
        cases hx : resolve_list fs base fuel xs cf with
        | error e => simp [hx, Bind.bind, Except.bind] at h
        | ok rs =>
          rw [ih2 xs cf rs hx]
          simpa [hx, Bind.bind, Except.bind] using h
      | obj kvs =>
        cases himp : lookupKV kvs "$import" with
        | none =>
          rw [resolve_imports_obj_noimp fs base fuel cf himp] at h
          rw [resolve_imports_obj_noimp fs base (fuel + 1) cf himp]
          cases hx : resolve_entries fs base fuel kvs cf with
          | error e => simp [hx, Bind.bind, Except.bind] at h
          | ok rs =>
            rw [ih3 kvs cf rs hx]
            simpa [hx, Bind.bind, Except.bind] using h
        | some iv =>
          cases iv with
          | str s =>
            rw [resolve_imports_obj_imp fs base fuel cf himp] at h
            rw [resolve_imports_obj_imp fs base (fuel + 1) cf himp]
            cases hp : resolve_import_path s cf base with
            | error e => simp [hp, Bind.bind, Except.bind] at h
            | ok pk =>
              simp only [hp, Bind.bind, Except.bind] at h ⊢
              cases ht : get_template_value fs pk.1 pk.2 with
              | error e => simp [ht, Bind.bind, Except.bind] at h
              | ok tv =>
                simp only [ht, Bind.bind, Except.bind] at h ⊢
                cases hr : resolve_imports fs base fuel tv pk.1 with
                | error e => simp [hr, Bind.bind, Except.bind] at h
                | ok rt =>
                  rw [ih1 tv pk.1 rt hr]
                  simp only [hr, Bind.bind, Except.bind] at h ⊢
                  cases rt with
                  | obj tkvs =>
                    cases hm : merge_overrides fs base fuel kvs tkvs cf with
                    | error e => simp [hm, Bind.bind, Except.bind] at h
                    | ok m =>
                      have hm2 := ih4 kvs tkvs cf m hm
                      simp only [hm, hm2, Bind.bind, Except.bind] at h ⊢
                      exact h
                  | null => exact h
                  | bool b => exact h
                  | num n => exact h
                  | str s2 => exact h
                  | arr l => exact h
          | null =>
            rw [resolve_imports_obj_eq, himp] at h
            cases h
          | bool b =>
            rw [resolve_imports_obj_eq, himp] at h
            cases h
          | num n =>
            rw [resolve_imports_obj_eq, himp] at h
            cases h
          | arr l =>
            rw [resolve_imports_obj_eq, himp] at h
            cases h
          | obj l =>
            rw [resolve_imports_obj_eq, himp] at h
            cases h
    · intro xs cf outs h
      cases xs with
      | nil => exact h
      | cons x rest =>
        rw [resolve_list_cons_eq] at h
        rw [resolve_list_cons_eq]
        cases hx : resolve_imports fs base fuel x cf with
        | error e => simp [hx, Bind.bind, Except.bind] at h
        | ok v =>
          rw [ih1 x cf v hx]
          cases hr : resolve_list fs base fuel rest cf with
          | error e => simp [hx, hr, Bind.bind, Except.bind] at h
          | ok vs =>
            rw [ih2 rest cf vs hr]
            simpa [hx, hr, Bind.bind, Except.bind] using h
    · intro kvs cf outs h
      cases kvs with
      | nil => exact h
      | cons p rest =>
        cases p with
        | mk k v =>
          rw [resolve_entries_cons_eq] at h
          rw [resolve_entries_cons_eq]
          cases hx : resolve_imports fs base fuel v cf with
          | error e => simp [hx, Bind.bind, Except.bind] at h
          | ok rv =>
            rw [ih1 v cf rv hx]
            cases hr : resolve_entries fs base fuel rest cf with
            | error e => simp [hx, hr, Bind.bind, Except.bind] at h
            | ok rs =>
              rw [ih3 rest cf rs hr]
              simpa [hx, hr, Bind.bind, Except.bind] using h
    · intro rest acc cf out h
      cases rest with
      | nil => exact h
      | cons p rest2 =>
        cases p with
        | mk k v =>
          rw [merge_overrides_cons_eq] at h
          rw [merge_overrides_cons_eq]
          by_cases hk : k = "$import"
          · rw [if_pos hk] at h ⊢
            exact ih4 rest2 acc cf out h
          · rw [if_neg hk] at h ⊢
            cases hx : resolve_imports fs base fuel v cf with
            | error e => simp [hx, Bind.bind, Except.bind] at h
            | ok rv =>
              rw [ih1 v cf rv hx]
              simp only [hx, Bind.bind, Except.bind] at h ⊢
              exact ih4 rest2 (setKV acc k rv) cf out h

theorem resolve_imports_mono (fs : FileSystem) (base : FsPath)
    {fuel fuel2 : Nat} (hle : fuel ≤ fuel2) {d : Json} {cf : FsPath} {out : Json}
    (h : resolve_imports fs base fuel d cf = .ok out) :
    resolve_imports fs base fuel2 d cf = .ok out := by
  induction fuel2 with
  | zero =>
    have : fuel = 0 := Nat.le_zero.mp hle
    exact this ▸ h
  | succ f ihf =>
    rcases Nat.lt_or_ge fuel (f + 1) with hlt | hge
    · exact (resolve_fuel_mono_all fs base f).1 d cf out (ihf (Nat.lt_succ_iff.mp hlt))
    · have : fuel = f + 1 := Nat.le_antisymm hle hge
      exact this ▸ h

theorem keysNodupB_cons {k : String} {v : Json} {rest : List (String × Json)}
    (h : keysNodupB ((k, v) :: rest) = true) :
    hasKeyKV rest k = false ∧ keysNodupB rest = true := by
  simp [keysNodupB] at h
  exact ⟨h.1, h.2⟩

/-- Keys the merge loop never writes keep the accumulator's binding. -/
theorem merge_overrides_untouched (fs : FileSystem) (base : FsPath) :
    ∀ (rest : List (String × Json)) (fuel : Nat) (acc : List (String × Json))
      (cf : FsPath) (out : List (String × Json)) (k : String),
      merge_overrides fs base fuel rest acc cf = .ok out →
      hasKeyKV rest k = false →
      lookupKV out k = lookupKV acc k := by
  intro rest
  induction rest with
  | nil =>
    intro fuel acc cf out k h hk
    cases fuel with
    | zero => cases h
    | succ f =>
      simp only [merge_overrides] at h
      cases h
      rfl
  | cons p rest2 ih =>
    intro fuel acc cf out k h hk
    cases p with
    | mk k1 v1 =>
      cases fuel with
      | zero => cases h
      | succ f =>
        rw [merge_overrides_cons_eq] at h
        have hk1 : k1 ≠ k := by
          intro he
          simp [hasKeyKV, lookupKV, he] at hk
        have hk2 : hasKeyKV rest2 k = false := by
          simp [hasKeyKV, lookupKV, hk1] at hk
          simp [hasKeyKV, hk]
        by_cases hki : k1 = "$import"
        · rw [if_pos hki] at h
          exact ih f acc cf out k h hk2
        · rw [if_neg hki] at h
          cases hx : resolve_imports fs base f v1 cf with
          | error e => simp [hx, Bind.bind, Except.bind] at h
          | ok rv =>
            simp only [hx, Bind.bind, Except.bind] at h
            have := ih f (setKV acc k1 rv) cf out k h hk2
            rw [this, lookupKV_setKV_ne acc k1 k rv hk1]

/-- A key the importing mapping binds (other than `$import`) ends up bound
to its recursively resolved value — the importer's keys win. -/
theorem merge_overrides_override (fs : FileSystem) (base : FsPath) :
    ∀ (rest : List (String × Json)) (fuel : Nat) (acc : List (String × Json))
      (cf : FsPath) (out : List (String × Json)) (k : String) (v : Json),
      merge_overrides fs base fuel rest acc cf = .ok out →
      keysNodupB rest = true →
      k ≠ "$import" →
      lookupKV rest k = some v →
      ∃ rv, resolve_imports fs base fuel v cf = .ok rv ∧ lookupKV out k = some rv := by
  intro rest
  induction rest with
  | nil =>
    intro fuel acc cf out k v h hnd hk hl
    cases hl
  | cons p rest2 ih =>
    intro fuel acc cf out k v h hnd hk hl
    cases p with
    | mk k1 v1 =>
      cases fuel with
      | zero => cases h
      | succ f =>
        rw [merge_overrides_cons_eq] at h
        obtain ⟨hnd1, hnd2⟩ := keysNodupB_cons hnd
        by_cases hki : k1 = "$import"
        · rw [if_pos hki] at h
          have hk1 : k1 ≠ k := fun he => hk (he ▸ hki ▸ rfl)
          simp only [lookupKV, if_neg hk1] at hl
          obtain ⟨rv, hrv, hout⟩ := ih f acc cf out k v h hnd2 hk hl
          exact ⟨rv, (resolve_fuel_mono_all fs base f).1 v cf rv hrv, hout⟩
        · rw [if_neg hki] at h
          cases hx : resolve_imports fs base f v1 cf with
          | error e => simp [hx, Bind.bind, Except.bind] at h
          | ok rv1 =>
            simp only [hx, Bind.bind, Except.bind] at h
            by_cases hke : k1 = k
            · subst hke
              simp only [lookupKV, if_pos rfl] at hl
              cases hl
              refine ⟨rv1, (resolve_fuel_mono_all fs base f).1 _ cf rv1 hx, ?_⟩
              have := merge_overrides_untouched fs base rest2 f (setKV acc k1 rv1) cf out k1 h hnd1
              rw [this, lookupKV_setKV_self]
            · simp only [lookupKV, if_neg hke] at hl
              obtain ⟨rv, hrv, hout⟩ := ih f (setKV acc k1 rv1) cf out k v h hnd2 hk hl
              exact ⟨rv, (resolve_fuel_mono_all fs base f).1 v cf rv hrv, hout⟩

end ResolverLemmas

/--
Claim C5: when the `$import`-referenced template value resolves to a
Mapping, the result binds every non-`$import` key of the importing node to
that sibling's recursively resolved value (the importer's keys win), and
every key the importing node does not bind keeps the resolved template's
binding (template-only keys are retained).
-/
theorem C5_mapping_merge (fs : FileSystem) (base : FsPath) (fuel : Nat)
    (kvs : List (String × Json)) (currentFile : FsPath) (s : String)
    (pk : FsPath × String) (tv : Json) (tkvs out : List (String × Json))
    (hnd : keysNodupB kvs = true)
    (h1 : lookupKV kvs "$import" = some (.str s))
    (h2 : DeviceConfigResolver.resolve_import_path s currentFile base = .ok pk)
    (h3 : DeviceConfigResolver.get_template_value fs pk.1 pk.2 = .ok tv)
    (h4 : DeviceConfigResolver.resolve_imports fs base fuel tv pk.1 = .ok (.obj tkvs))
    (h5 : DeviceConfigResolver.resolve_imports fs base (fuel + 1) (.obj kvs) currentFile =
      .ok (.obj out)) :
    (∀ k v, k ≠ "$import" → lookupKV kvs k = some v →
      ∃ rv, DeviceConfigResolver.resolve_imports fs base fuel v currentFile = .ok rv ∧
        lookupKV out k = some rv) ∧
    (∀ k, lookupKV kvs k = none → lookupKV out k = lookupKV tkvs k) := by
  rw [resolve_imports_obj_imp fs base fuel currentFile h1] at h5
  simp only [h2, h3, h4, Bind.bind, Except.bind] at h5
  cases hm : DeviceConfigResolver.merge_overrides fs base fuel kvs tkvs currentFile with
  | error e => simp [hm, Bind.bind, Except.bind] at h5
  | ok m =>
    simp only [hm, pure, Except.pure, Except.ok.injEq, Json.obj.injEq] at h5
    subst h5
    constructor
    · intro k v hk hl
      exact merge_overrides_override fs base kvs fuel tkvs currentFile m k v hm hnd hk hl
    · intro k hl
      exact merge_overrides_untouched fs base kvs fuel tkvs currentFile m k hm
        (by simp [hasKeyKV, hl])

/-- Claim C5 witness: the spec's own example — template `{"a":1,"b":2}`
imported with sibling `b = 99` yields a result binding `b` to 99 (importer
wins) and retaining `a` at 1 (template-only key kept). -/
theorem C5_mapping_merge_witness :
    DeviceConfigResolver.resolve_imports exampleFS ["base"] 9
      (.obj [("$import", .str "~/templates/t.json#t"), ("b", .num 99)])
      ["base", "0x027a", "dev.json"] = .ok (.obj [("a", .num 1), ("b", .num 99)]) ∧
    lookupKV [("a", .num 1), ("b", .num 99)] "b" = some (.num 99) ∧
    lookupKV [("a", .num 1), ("b", .num 99)] "a" = some (.num 1) := by
  have h := C5_mapping_merge exampleFS ["base"] 8
    [("$import", .str "~/templates/t.json#t"), ("b", .num 99)]
    ["base", "0x027a", "dev.json"] "~/templates/t.json#t"
    (["base", "templates", "t.json"], "t")
    (.obj [("a", .num 1), ("b", .num 2)])
    [("a", .num 1), ("b", .num 2)]
    [("a", .num 1), ("b", .num 99)]
    rfl rfl rfl rfl rfl rfl
  refine ⟨rfl, ?_, ?_⟩
  · obtain ⟨rv, hrv, hout⟩ := h.1 "b" (.num 99) (by decide) rfl
    have h99 : DeviceConfigResolver.resolve_imports exampleFS ["base"] 8 (.num 99)
        ["base", "0x027a", "dev.json"] = .ok (.num 99) := rfl
    rw [h99] at hrv
    cases hrv
    exact hout
  · have := h.2 "a" rfl
    simpa using this

theorem hasKeyKV_false_iff (l : List (String × Json)) (k : String) :
    hasKeyKV l k = false ↔ k ∉ keysOf l := by
  unfold hasKeyKV
  cases ho : lookupKV l k with
  | none => simp [(lookupKV_eq_none_iff l k).mp ho]
  | some v =>
    simp only [Option.isSome_some, Bool.true_eq_false, false_iff, not_not]
    exact List.mem_map_of_mem Prod.fst (mem_of_lookupKV_eq_some ho)

theorem noImportEntriesB_setKV (l : List (String × Json)) (k : String) (v : Json)
    (hl : noImportEntriesB l = true) (hv : noImportB v = true) :
    noImportEntriesB (setKV l k v) = true := by
  induction l with
  | nil => simp [setKV, noImportEntriesB, hv]
  | cons p rest ih =>
    cases p with
    | mk k1 v1 =>
      simp only [noImportEntriesB, Bool.and_eq_true] at hl
      by_cases h : k1 = k
      · simp [setKV, h, noImportEntriesB, hv, hl.2]
      · simp [setKV, h, noImportEntriesB, hl.1, ih hl.2]

theorem resolve_entries_keys (fs : FileSystem) (base : FsPath) :
    ∀ (kvs : List (String × Json)) (fuel : Nat) (cf : FsPath)
      (outs : List (String × Json)),
      DeviceConfigResolver.resolve_entries fs base fuel kvs cf = .ok outs →
      keysOf outs = keysOf kvs := by
  intro kvs
  induction kvs with
  | nil =>
    intro fuel cf outs h
    cases fuel with
    | zero => cases h
    | succ f =>
      cases h
      rfl
  | cons p rest ih =>
    intro fuel cf outs h
    cases p with
    | mk k v =>
      cases fuel with
      | zero => cases h
      | succ f =>
        rw [resolve_entries_cons_eq] at h
        cases hx : DeviceConfigResolver.resolve_imports fs base f v cf with
        | error e => simp [hx, Bind.bind, Except.bind] at h
        | ok rv =>
          simp only [hx, Bind.bind, Except.bind] at h
          cases hr : DeviceConfigResolver.resolve_entries fs base f rest cf with
          | error e => simp [hr, Bind.bind, Except.bind] at h
          | ok rs =>
            simp only [hr, pure, Except.pure, Except.ok.injEq] at h
            subst h
            simp [keysOf] at ih ⊢
            exact ih f cf rs hr

/-- No run of the resolver can return a tree still containing a `$import`
key: each of the four mutually recursive functions, whenever it succeeds,
produces import-free output (for the merge loop, provided the accumulator
it extends is import-free, as the resolved template always is). -/
theorem resolve_noImport_all (fs : FileSystem) (base : FsPath) : ∀ fuel : Nat,
    (∀ d cf out, DeviceConfigResolver.resolve_imports fs base fuel d cf = .ok out →
      noImportB out = true) ∧
    (∀ xs cf outs, DeviceConfigResolver.resolve_list fs base fuel xs cf = .ok outs →
      noImportListB outs = true) ∧
    (∀ kvs cf outs, DeviceConfigResolver.resolve_entries fs base fuel kvs cf = .ok outs →
      noImportEntriesB outs = true) ∧
    (∀ rest acc cf out, DeviceConfigResolver.merge_overrides fs base fuel rest acc cf = .ok out →
      hasKeyKV acc "$import" = false → noImportEntriesB acc = true →
      hasKeyKV out "$import" = false ∧ noImportEntriesB out = true) := by
  intro fuel
  induction fuel with
  | zero =>
    refine ⟨?_, ?_, ?_, ?_⟩ <;> intros <;> simp_all [DeviceConfigResolver.resolve_imports,
      DeviceConfigResolver.resolve_list, DeviceConfigResolver.resolve_entries,
      DeviceConfigResolver.merge_overrides]
  | succ fuel ih =>
    obtain ⟨ih1, ih2, ih3, ih4⟩ := ih
    refine ⟨?_, ?_, ?_, ?_⟩
    · intro d cf out h
      cases d with
      | null => cases h; rfl
      | bool b => cases h; rfl
      | num n => cases h; rfl
      | str s => cases h; rfl
      | arr xs =>
        rw [resolve_imports_arr_eq] at h
        cases hx : DeviceConfigResolver.resolve_list fs base fuel xs cf with
        | error e => simp [hx, Bind.bind, Except.bind] at h
        | ok rs =>
          simp only [hx, Bind.bind, Except.bind, pure, Except.pure, Except.ok.injEq] at h
          subst h
          exact ih2 xs cf rs hx
      | obj kvs =>
        cases himp : lookupKV kvs "$import" with
        | none =>
          rw [resolve_imports_obj_noimp fs base fuel cf himp] at h
          cases hx : DeviceConfigResolver.resolve_entries fs base fuel kvs cf with
          | error e => simp [hx, Bind.bind, Except.bind] at h
          | ok rs =>
            simp only [hx, Bind.bind, Except.bind, pure, Except.pure, Except.ok.injEq] at h
            subst h
            have hkeys := resolve_entries_keys fs base kvs fuel cf rs hx
            have hnk : hasKeyKV rs "$import" = false := by
              rw [hasKeyKV_false_iff, hkeys]
              rw [← lookupKV_eq_none_iff]
              exact himp
            simp [noImportB, hnk, ih3 kvs cf rs hx]
        | some iv =>
          cases iv with
          | str s =>
            rw [resolve_imports_obj_imp fs base fuel cf himp] at h
            cases hp : DeviceConfigResolver.resolve_import_path s cf base with
            | error e => simp [hp, Bind.bind, Except.bind] at h
            | ok pk =>
              simp only [hp, Bind.bind, Except.bind] at h
              cases ht : DeviceConfigResolver.get_template_value fs pk.1 pk.2 with
              | error e => simp [ht, Bind.bind, Except.bind] at h
              | ok tv =>
                simp only [ht, Bind.bind, Except.bind] at h
                cases hr : DeviceConfigResolver.resolve_imports fs base fuel tv pk.1 with
                | error e => simp [hr, Bind.bind, Except.bind] at h
                | ok rt =>
                  simp only [hr] at h
                  have hrt := ih1 tv pk.1 rt hr
                  cases rt with
                  | obj tkvs =>
                    simp only [noImportB, Bool.and_eq_true, Bool.not_eq_eq_eq_not,
                      Bool.not_true] at hrt
                    cases hm : DeviceConfigResolver.merge_overrides fs base fuel kvs tkvs cf with
                    | error e => simp [hm, Bind.bind, Except.bind] at h
                    | ok m =>
                      simp only [hm, Bind.bind, Except.bind, pure, Except.pure,
                        Except.ok.injEq] at h
                      subst h
                      have := ih4 kvs tkvs cf m hm hrt.1 hrt.2
                      simp [noImportB, this.1, this.2]
                  | null =>
                    have h2 : (if kvs.length = 1 then (pure Json.null : Except ResolveError Json)
                        else .error .mergeConflict) = .ok out := h
                    by_cases hlen : kvs.length = 1
                    · rw [if_pos hlen] at h2; cases h2; rfl
                    · rw [if_neg hlen] at h2; cases h2
                  | bool b =>
                    have h2 : (if kvs.length = 1 then (pure (Json.bool b) : Except ResolveError Json)
                        else .error .mergeConflict) = .ok out := h
                    by_cases hlen : kvs.length = 1
                    · rw [if_pos hlen] at h2; cases h2; rfl
                    · rw [if_neg hlen] at h2; cases h2
                  | num n =>
                    have h2 : (if kvs.length = 1 then (pure (Json.num n) : Except ResolveError Json)
                        else .error .mergeConflict) = .ok out := h
                    by_cases hlen : kvs.length = 1
                    · rw [if_pos hlen] at h2; cases h2; rfl
                    · rw [if_neg hlen] at h2; cases h2
                  | str s2 =>
                    have h2 : (if kvs.length = 1 then (pure (Json.str s2) : Except ResolveError Json)
                        else .error .mergeConflict) = .ok out := h
                    by_cases hlen : kvs.length = 1
                    · rw [if_pos hlen] at h2; cases h2; rfl
                    · rw [if_neg hlen] at h2; cases h2
                  | arr l =>
                    have h2 : (if kvs.length = 1 then (pure (Json.arr l) : Except ResolveError Json)
                        else .error .mergeConflict) = .ok out := h
                    by_cases hlen : kvs.length = 1
                    · rw [if_pos hlen] at h2; cases h2; exact hrt
                    · rw [if_neg hlen] at h2; cases h2
          | null =>
            rw [resolve_imports_obj_eq, himp] at h
            cases h
          | bool b =>
            rw [resolve_imports_obj_eq, himp] at h
            cases h
          | num n =>
            rw [resolve_imports_obj_eq, himp] at h
            cases h
          | arr l =>
            rw [resolve_imports_obj_eq, himp] at h
            cases h
          | obj l =>
            rw [resolve_imports_obj_eq, himp] at h
            cases h
    · intro xs cf outs h
      cases xs with
      | nil =>
        cases h
        rfl
      | cons x rest =>
        rw [resolve_list_cons_eq] at h
        cases hx : DeviceConfigResolver.resolve_imports fs base fuel x cf with
        | error e => simp [hx, Bind.bind, Except.bind] at h
        | ok v =>
          simp only [hx, Bind.bind, Except.bind] at h
          cases hr : DeviceConfigResolver.resolve_list fs base fuel rest cf with
          | error e => simp [hr, Bind.bind, Except.bind] at h
          | ok vs =>
            simp only [hr, pure, Except.pure, Except.ok.injEq] at h
            subst h
            simp [noImportListB, ih1 x cf v hx, ih2 rest cf vs hr]
    · intro kvs cf outs h
      cases kvs with
      | nil =>
        cases h
        rfl
      | cons p rest =>
        cases p with
        | mk k v =>
          rw [resolve_entries_cons_eq] at h
          cases hx : DeviceConfigResolver.resolve_imports fs base fuel v cf with
          | error e => simp [hx, Bind.bind, Except.bind] at h
          | ok rv =>
            simp only [hx, Bind.bind, Except.bind] at h
            cases hr : DeviceConfigResolver.resolve_entries fs base fuel rest cf with
            | error e => simp [hr, Bind.bind, Except.bind] at h
            | ok rs =>
              simp only [hr, pure, Except.pure, Except.ok.injEq] at h
              subst h
              simp [noImportEntriesB, ih1 v cf rv hx, ih3 rest cf rs hr]
    · intro rest acc cf out h hacc1 hacc2
      cases rest with
      | nil =>
        cases h
        exact ⟨hacc1, hacc2⟩
      | cons p rest2 =>
        cases p with
        | mk k v =>
          rw [merge_overrides_cons_eq] at h
          by_cases hki : k = "$import"
          · rw [if_pos hki] at h
            exact ih4 rest2 acc cf out h hacc1 hacc2
          · rw [if_neg hki] at h
            cases hx : DeviceConfigResolver.resolve_imports fs base fuel v cf with
            | error e => simp [hx, Bind.bind, Except.bind] at h
            | ok rv =>
              simp only [hx, Bind.bind, Except.bind] at h
              have hacc1' : hasKeyKV (setKV acc k rv) "$import" = false := by
                unfold hasKeyKV
                rw [lookupKV_setKV_ne acc k "$import" rv hki]
                exact hacc1
              have hacc2' : noImportEntriesB (setKV acc k rv) = true :=
                noImportEntriesB_setKV acc k rv hacc2 (ih1 v cf rv hx)
              exact ih4 rest2 (setKV acc k rv) cf out h hacc1' hacc2'

/--
Claim C4: whenever the resolver returns successfully, the returned tree
contains no Mapping anywhere — at any depth, including inside values
expanded from templates and inside resolved sibling overrides — that still
has a `$import` key: nested imports are expanded transitively.
-/
theorem C4_no_import_survives (fs : FileSystem) (base : FsPath) (fuel : Nat)
    (d : Json) (cf : FsPath) (out : Json)
    (h : DeviceConfigResolver.resolve_imports fs base fuel d cf = .ok out) :
    noImportB out = true :=
  (resolve_noImport_all fs base fuel).1 d cf out h

/-- Claim C4 witness: a document importing a mapping template and carrying
a sibling override that itself imports resolves to an import-free tree. -/
theorem C4_no_import_survives_witness :
    noImportB (.obj [("a", .num 1), ("b", .num 2), ("z", .num 7)]) = true := by
  have hrun : DeviceConfigResolver.resolve_imports exampleFS ["base"] 9
      (.obj [("$import", .str "~/templates/t.json#t"),
             ("z", .obj [("$import", .str "#u")])])
      ["base", "0x027a", "dev.json"] =
      .ok (.obj [("a", .num 1), ("b", .num 2), ("z", .num 7)]) := rfl
  exact C4_no_import_survives exampleFS ["base"] 9
    (.obj [("$import", .str "~/templates/t.json#t"),
           ("z", .obj [("$import", .str "#u")])])
    ["base", "0x027a", "dev.json"] _ hrun

theorem splitFirst_append (sep : Char) (l r : List Char) (h : sep ∉ l) :
    splitFirst sep (l ++ sep :: r) = some (l, r) := by
  induction l with
  | nil => simp [splitFirst]
  | cons c cs ih =>
    have h1 : c ≠ sep := by
      intro he
      exact h (he ▸ List.mem_cons_self c cs)
    have h2 : sep ∉ cs := fun hm => h (List.mem_cons_of_mem c hm)
    simp [splitFirst, h1, ih h2]

/-- An empty-path reference always parses to the current file itself. -/
theorem resolve_import_path_self (u : String) (F base : FsPath) :
    DeviceConfigResolver.resolve_import_path ("#" ++ u) F base = .ok (F, u) := rfl

/--
Claim C7: the "current file" is tracked per recursion frame.  (1) A node
importing by an empty path, resolved while the current file is `F`, reads
its key from `F` itself — and the looked-up template value is then
recursively resolved still with current file `F` — whatever frame of the
recursion this happens in; (2) an empty path parses to the current frame's
file; (3) a relative path parses against the current frame file's
directory; (4) a `~/` path parses against the base directory; (5) the
sibling override values of an importing node are resolved with the
original importing file as current file.
-/
theorem C7_current_file_tracking :
    (∀ (fs : FileSystem) (base : FsPath) (fuel : Nat) (F : FsPath)
        (Fkvs : List (String × Json)) (u : String),
      2 ≤ fuel →
      fsLookup fs F = some (.obj Fkvs) →
      DeviceConfigResolver.resolve_imports fs base (fuel + 1)
          (.obj [("$import", .str ("#" ++ u))]) F =
        (match lookupKV Fkvs u with
         | some tv => DeviceConfigResolver.resolve_imports fs base fuel tv F
         | none => .error .keyNotFound)) ∧
    (∀ (u : String) (F base : FsPath),
      DeviceConfigResolver.resolve_import_path ("#" ++ u) F base = .ok (F, u)) ∧
    (∀ (c : Char) (cs : List Char) (u : String) (F base : FsPath),
      c ≠ '~' → '#' ∉ c :: cs →
      DeviceConfigResolver.resolve_import_path (⟨c :: cs⟩ ++ "#" ++ u) F base =
        .ok (F.dropLast ++ pathSegsOfChars (c :: cs), u)) ∧
    (∀ (cs : List Char) (u : String) (F base : FsPath),
      '#' ∉ cs →
      DeviceConfigResolver.resolve_import_path (⟨'~' :: '/' :: cs⟩ ++ "#" ++ u) F base =
        .ok (base ++ pathSegsOfChars cs, u)) ∧
    (∀ (fs : FileSystem) (base : FsPath) (fuel : Nat) (kvs : List (String × Json))
        (currentFile : FsPath) (s : String) (pk : FsPath × String) (tv : Json)
        (tkvs out : List (String × Json)) (k : String) (v : Json),
      keysNodupB kvs = true →
      lookupKV kvs "$import" = some (.str s) →
      DeviceConfigResolver.resolve_import_path s currentFile base = .ok pk →
      DeviceConfigResolver.get_template_value fs pk.1 pk.2 = .ok tv →
      DeviceConfigResolver.resolve_imports fs base fuel tv pk.1 = .ok (.obj tkvs) →
      DeviceConfigResolver.resolve_imports fs base (fuel + 1) (.obj kvs) currentFile =
        .ok (.obj out) →
      k ≠ "$import" → lookupKV kvs k = some v →
      ∃ rv, DeviceConfigResolver.resolve_imports fs base fuel v currentFile = .ok rv ∧
        lookupKV out k = some rv) := by
  refine ⟨?_, ?_, ?_, ?_, ?_⟩
  · intro fs base fuel F Fkvs u hfuel hF
    obtain ⟨f, rfl⟩ : ∃ f, fuel = f + 2 := ⟨fuel - 2, by omega⟩
    have himp : lookupKV [("$import", Json.str ("#" ++ u))] "$import" =
        some (.str ("#" ++ u)) := by simp [lookupKV]
    rw [resolve_imports_obj_imp fs base (f + 2) F himp]
    have hget : DeviceConfigResolver.get_template_value fs F u =
        (match lookupKV Fkvs u with
         | some v => .ok v
         | none => .error .keyNotFound) := by
      simp [DeviceConfigResolver.get_template_value, DeviceConfigResolver.load_json_file,
        hF, Bind.bind, Except.bind]
    simp only [resolve_import_path_self, Bind.bind, Except.bind]
    cases hres : lookupKV Fkvs u with
    | none => simp [hget, hres]
    | some tv =>
      simp only [hget, hres]
      cases hr : DeviceConfigResolver.resolve_imports fs base (f + 2) tv F with
      | error e => simp [hr]
      | ok rt =>
        simp only [hr]
        cases rt with
        | obj tkvs =>
          have hm : DeviceConfigResolver.merge_overrides fs base (f + 2)
              [("$import", Json.str ("#" ++ u))] tkvs F = .ok tkvs := by
            rw [merge_overrides_cons_eq]
            simp
            rfl
          simp [hm, Bind.bind, Except.bind, pure, Except.pure]
        | null => simp [pure, Except.pure]
        | bool b => simp [pure, Except.pure]
        | num n => simp [pure, Except.pure]
        | str s2 => simp [pure, Except.pure]
        | arr l => simp [pure, Except.pure]
  · intro u F base
    exact resolve_import_path_self u F base
  · intro c cs u F base hc hno
    have hd : (((⟨c :: cs⟩ : String) ++ "#") ++ u).data = (c :: cs) ++ '#' :: u.data := by
      show ((c :: cs) ++ ['#']) ++ u.data = (c :: cs) ++ '#' :: u.data
      simp
    simp only [DeviceConfigResolver.resolve_import_path, hd,
      splitFirst_append '#' (c :: cs) u.data hno]
    split
    · rename_i heq
      cases heq
    · rename_i heq
      rw [List.cons_eq_cons] at heq
      exact absurd heq.1 hc
    · rfl
  · intro cs u F base hno
    have hno2 : '#' ∉ '~' :: '/' :: cs := by
      intro hm
      rcases List.mem_cons.mp hm with h | h
      · cases h
      · rcases List.mem_cons.mp h with h | h
        · cases h
        · exact hno h
    have hd : (((⟨'~' :: '/' :: cs⟩ : String) ++ "#") ++ u).data =
        ('~' :: '/' :: cs) ++ '#' :: u.data := by
      show (('~' :: '/' :: cs) ++ ['#']) ++ u.data = ('~' :: '/' :: cs) ++ '#' :: u.data
      simp
    simp only [DeviceConfigResolver.resolve_import_path, hd,
      splitFirst_append '#' ('~' :: '/' :: cs) u.data hno2]
  · intro fs base fuel kvs currentFile s pk tv tkvs out k v hnd h1 h2 h3 h4 h5 hk hl
    rw [resolve_imports_obj_imp fs base fuel currentFile h1] at h5
    simp only [h2, h3, h4, Bind.bind, Except.bind] at h5
    cases hm : DeviceConfigResolver.merge_overrides fs base fuel kvs tkvs currentFile with
    | error e => simp [hm, Bind.bind, Except.bind] at h5
    | ok m =>
      simp only [hm, pure, Except.pure, Except.ok.injEq, Json.obj.injEq] at h5
      subst h5
      exact merge_overrides_override fs base kvs fuel tkvs currentFile m k v hm hnd hk hl

/-- Claim C7 witness: the same empty-path import node `{"$import": "#u"}`
reads 42 when the current frame's file is the template (which binds `u` to
42) and 7 when it is the device file (which binds `u` to 7) — the file
consulted is the per-frame current file. -/
theorem C7_current_file_tracking_witness :
    DeviceConfigResolver.resolve_imports exampleFS ["base"] 4
      (.obj [("$import", .str ("#" ++ "u"))]) ["base", "templates", "t.json"] =
      .ok (.num 42) ∧
    DeviceConfigResolver.resolve_imports exampleFS ["base"] 4
      (.obj [("$import", .str ("#" ++ "u"))]) ["base", "0x027a", "dev.json"] =
      .ok (.num 7) := by
  constructor
  · have h := C7_current_file_tracking.1 exampleFS ["base"] 3 ["base", "templates", "t.json"]
      [("t", .obj [("a", .num 1), ("b", .num 2)]), ("u", .num 42), ("s", .str "hello"),
       ("w", .obj [("$import", .str "#u")])] "u" (by omega) rfl
    rw [h]
    rfl
  · have h := C7_current_file_tracking.1 exampleFS ["base"] 3 ["base", "0x027a", "dev.json"]
      [("u", .num 7)] "u" (by omega) rfl
    rw [h]
    rfl

namespace JsonCommentStripper

/-- Declarative counterpart for checking the scanner: the index of the
first `//` occurrence in a line, with no string-literal or escape state. -/
def firstDoubleSlash : List Char → Option Nat
  | [] => none
  | c :: rest =>
    if c = '/' ∧ rest.head? = some '/' then some 0
    else (firstDoubleSlash rest).map (· + 1)

theorem mem_splitLines_no_newline :
    ∀ (cs : List Char) (l : List Char), l ∈ splitLinesChars cs → '\n' ∉ l := by
  intro cs
  induction cs with
  | nil =>
    intro l hl
    simp [splitLinesChars] at hl
    simp [hl]
  | cons c rest ih =>
    intro l hl
    by_cases hc : c = '\n'
    · simp [splitLinesChars, hc] at hl
      rcases hl with hl | hl
      · simp [hl]
      · exact ih l hl
    · simp only [splitLinesChars, if_neg hc] at hl
      cases hsplit : splitLinesChars rest with
      | nil =>
        simp [hsplit] at hl
        simp [hl]
        exact fun h => hc h.symm
      | cons l2 ls =>
        rw [hsplit] at hl
        rcases List.mem_cons.mp hl with hl | hl
        · subst hl
          intro hmem
          rcases List.mem_cons.mp hmem with h | h
          · exact hc h.symm
          · exact ih l2 (hsplit ▸ List.mem_cons_self l2 ls) h
        · exact ih l (hsplit ▸ List.mem_cons_of_mem l2 hl)

theorem splitLines_ne_nil (cs : List Char) : splitLinesChars cs ≠ [] := by
  cases cs with
  | nil => simp [splitLinesChars]
  | cons c rest =>
    by_cases hc : c = '\n'
    · simp [splitLinesChars, hc]
    · simp only [splitLinesChars, if_neg hc]
      cases splitLinesChars rest <;> simp

theorem splitLines_append_newline (l rest : List Char) (h : '\n' ∉ l) :
    splitLinesChars (l ++ '\n' :: rest) = l :: splitLinesChars rest := by
  induction l with
  | nil => simp [splitLinesChars]
  | cons c cs ih =>
    have hc : c ≠ '\n' := fun he => h (he ▸ List.mem_cons_self c cs)
    have h2 : '\n' ∉ cs := fun hm => h (List.mem_cons_of_mem c hm)
    simp only [List.cons_append, splitLinesChars, if_neg hc]
    rw [show cs.append ('\n' :: rest) = cs ++ '\n' :: rest from rfl, ih h2]

theorem splitLines_no_newline (l : List Char) (h : '\n' ∉ l) :
    splitLinesChars l = [l] := by
  induction l with
  | nil => rfl
  | cons c cs ih =>
    have hc : c ≠ '\n' := fun he => h (he ▸ List.mem_cons_self c cs)
    have h2 : '\n' ∉ cs := fun hm => h (List.mem_cons_of_mem c hm)
    simp only [splitLinesChars, if_neg hc, ih h2]

theorem splitLines_joinLines :
    ∀ ls : List (List Char), ls ≠ [] → (∀ l ∈ ls, '\n' ∉ l) →
      splitLinesChars (joinLinesChars ls) = ls := by
  intro ls
  induction ls with
  | nil => intro h; cases h rfl
  | cons l ls2 ih =>
    intro _ hnl
    cases ls2 with
    | nil =>
      show splitLinesChars l = [l]
      exact splitLines_no_newline l (hnl l (List.mem_cons_self l []))
    | cons l2 ls3 =>
      show splitLinesChars (l ++ '\n' :: joinLinesChars (l2 :: ls3)) = l :: l2 :: ls3
      rw [splitLines_append_newline l _ (hnl l (List.mem_cons_self _ _))]
      rw [ih (by simp) (fun x hx => hnl x (List.mem_cons_of_mem l hx))]

theorem rstripChars_prefixOf (l : List Char) : rstripChars l <+: l := by
  unfold rstripChars
  have h := List.dropWhile_suffix (l := l.reverse) isSpacePy
  have h2 : (l.reverse.dropWhile isSpacePy).reverse <+: l.reverse.reverse :=
    List.reverse_prefix.mpr h
  simpa using h2

theorem stripLine_prefixOf (l : List Char) : stripLine l <+: l := by
  unfold stripLine
  cases scanComment l false false 0 with
  | none => exact List.prefix_refl l
  | some p => exact (rstripChars_prefixOf (l.take p)).trans (List.take_prefix p l)

theorem stripLine_no_newline (l : List Char) (h : '\n' ∉ l) :
    '\n' ∉ stripLine l :=
  fun hm => h ((stripLine_prefixOf l).sublist.mem hm)

theorem textLines_strip_comments (s : String) :
    textLines (strip_comments s) = (textLines s).map stripLine := by
  show splitLinesChars (joinLinesChars ((splitLinesChars s.data).map stripLine)) =
    (splitLinesChars s.data).map stripLine
  apply splitLines_joinLines
  · intro hmap
    exact splitLines_ne_nil s.data (List.map_eq_nil_iff.mp hmap)
  · intro l hl
    obtain ⟨l0, hl0, rfl⟩ := List.mem_map.mp hl
    exact stripLine_no_newline l0 (mem_splitLines_no_newline s.data l0 hl0)

theorem scanComment_cons (c : Char) (rest : List Char) (inString escaped : Bool)
    (i : Nat) :
    scanComment (c :: rest) inString escaped i =
      (if escaped then scanComment rest inString false (i + 1)
       else if c = '\\' then scanComment rest inString true (i + 1)
       else if c = '"' then scanComment rest (!inString) escaped (i + 1)
       else if !inString && c = '/' && rest.head? = some '/' then some i
       else scanComment rest inString escaped (i + 1)) := rfl

theorem scan_no_special :
    ∀ (l : List Char) (i : Nat), '"' ∉ l → '\\' ∉ l →
      scanComment l false false i = (firstDoubleSlash l).map (· + i) := by
  intro l
  induction l with
  | nil => intro i _ _; rfl
  | cons c rest ih =>
    intro i hq hb
    have hc1 : c ≠ '\\' := fun he => hb (he ▸ List.mem_cons_self c rest)
    have hc2 : c ≠ '"' := fun he => hq (he ▸ List.mem_cons_self c rest)
    have hq2 : '"' ∉ rest := fun hm => hq (List.mem_cons_of_mem c hm)
    have hb2 : '\\' ∉ rest := fun hm => hb (List.mem_cons_of_mem c hm)
    rw [scanComment_cons]
    rw [if_neg (by simp), if_neg hc1, if_neg hc2]
    by_cases hcc : c = '/' ∧ rest.head? = some '/'
    · rw [if_pos (by simp [hcc.1, hcc.2])]
      unfold firstDoubleSlash
      rw [if_pos hcc]
      simp
    · have hgo : (!false && c = '/' && rest.head? = some '/') = false := by
        rcases not_and_or.mp hcc with h | h
        · simp [h]
        · simp [h]
      rw [if_neg (by rw [hgo]; simp)]
      unfold firstDoubleSlash
      rw [if_neg hcc]
      rw [ih (i + 1) hq2 hb2, Option.map_map]
      congr 1
      funext a
      simp
      omega

end JsonCommentStripper

/--
Claim C8: the comment stripper (1) maps each input line to its stripped
form, (2) preserves the number of lines exactly, (3) only truncates — every
output line is a prefix of its input line; (4) on a line with no quote and
no backslash it removes exactly the first `//` and everything after it
(then trailing whitespace, per `rstrip`); (5) a line in which the scanner —
whose in-string flag is toggled by unescaped quotes and whose escape flag
suppresses the next character — finds no out-of-string `//` passes through
unchanged; and concretely (6) a `//` inside a string literal survives while
a trailing comment is removed, (7) an escaped quote does not end the
string, and (8) the in-string state resets at each new line, so a `//` on
the next line is stripped even when the previous line left a string open.
-/
theorem C8_comment_stripper :
    (∀ s : String, JsonCommentStripper.textLines (JsonCommentStripper.strip_comments s) =
      (JsonCommentStripper.textLines s).map JsonCommentStripper.stripLine) ∧
    (∀ s : String, (JsonCommentStripper.textLines (JsonCommentStripper.strip_comments s)).length =
      (JsonCommentStripper.textLines s).length) ∧
    (∀ s : String, List.Forall₂ (fun out ins => out <+: ins)
      (JsonCommentStripper.textLines (JsonCommentStripper.strip_comments s))
      (JsonCommentStripper.textLines s)) ∧
    (∀ l : List Char, '"' ∉ l → '\\' ∉ l →
      JsonCommentStripper.stripLine l =
        (match JsonCommentStripper.firstDoubleSlash l with
         | some p => JsonCommentStripper.rstripChars (l.take p)
         | none => l)) ∧
    (∀ l : List Char, JsonCommentStripper.scanComment l false false 0 = none →
      JsonCommentStripper.stripLine l = l) ∧
    JsonCommentStripper.strip_comments "\x7b\"a\": \"http://x\"\x7d  // note" =
      "\x7b\"a\": \"http://x\"\x7d" ∧
    JsonCommentStripper.strip_comments "\"a\\\" // b\"" = "\"a\\\" // b\"" ∧
    JsonCommentStripper.strip_comments "\"abc\n// x\"" = "\"abc\n" := by
  refine ⟨JsonCommentStripper.textLines_strip_comments, ?_, ?_, ?_, ?_, rfl, rfl, rfl⟩
  · intro s
    rw [JsonCommentStripper.textLines_strip_comments s]
    exact List.length_map _ _
  · intro s
    rw [JsonCommentStripper.textLines_strip_comments s]
    rw [List.forall₂_map_left_iff]
    rw [List.forall₂_same]
    intro x _
    exact JsonCommentStripper.stripLine_prefixOf x
  · intro l hq hb
    unfold JsonCommentStripper.stripLine
    rw [JsonCommentStripper.scan_no_special l 0 hq hb]
    cases JsonCommentStripper.firstDoubleSlash l with
    | none => rfl
    | some p => simp
  · intro l h
    unfold JsonCommentStripper.stripLine
    rw [h]

/-- Claim C8 witness: the quote-free, backslash-free characterization at a
concrete line — `let x = 1 // c` is truncated at the `//` and rstripped. -/
theorem C8_comment_stripper_witness :
    JsonCommentStripper.stripLine "let x = 1 // c".data =
      (match JsonCommentStripper.firstDoubleSlash "let x = 1 // c".data with
       | some p => JsonCommentStripper.rstripChars ("let x = 1 // c".data.take p)
       | none => "let x = 1 // c".data) ∧
    JsonCommentStripper.stripLine "let x = 1 // c".data = "let x = 1".data := by
  constructor
  · exact (C8_comment_stripper.2.2.2.1 "let x = 1 // c".data (by decide) (by decide))
  · rfl

/--
Claim C1 counterexample: at key `k` both mappings bind a value, the two
values (a Mapping and a Sequence) are not semantically equal, yet
`generate_diff_report` emits nothing at all — no `ValueModified` entry
(`"  Modified: ..."` lines) appears.
-/
theorem C1_mapping_vs_sequence_counterexample :
    JsonDiffer.json_objects_equal (.obj []) (.arr [.num 0]) = false ∧
    JsonDiffer.generate_diff_report
      (.obj [("k", .obj [])]) (.obj [("k", .arr [.num 0])]) "" = [] :=
  ⟨rfl, rfl⟩

/--
Claim C1 (amended): when the two values at a common key are a Mapping on
one side and a Sequence on the other, the differ recurses into the pair,
and that recursive call — `generate_diff_report` on a Mapping against a
Sequence — returns no entries at all (both `isinstance` arms fail), so
nothing, in particular no `ValueModified`, is emitted at that key's path.
-/
theorem C1_mapping_vs_sequence_amended (o : List (String × Json))
    (xs : List Json) (path : String) :
    JsonDiffer.generate_diff_report (.obj o) (.arr xs) path = [] ∧
    JsonDiffer.generate_diff_report (.arr xs) (.obj o) path = [] :=
  ⟨rfl, rfl⟩

/--
Claim C6: when the `$import`-referenced template value resolves to a
non-Mapping, a single-key importing node returns that resolved value
unchanged, and an importing node with any sibling key fails with the
merge-conflict error (so no merged result is produced at all).
-/
theorem C6_nonmapping_template (fs : FileSystem) (base : FsPath) (fuel : Nat)
    (kvs : List (String × Json)) (currentFile : FsPath) (s : String)
    (pk : FsPath × String) (tv rt : Json)
    (h1 : lookupKV kvs "$import" = some (.str s))
    (h2 : DeviceConfigResolver.resolve_import_path s currentFile base = .ok pk)
    (h3 : DeviceConfigResolver.get_template_value fs pk.1 pk.2 = .ok tv)
    (h4 : DeviceConfigResolver.resolve_imports fs base fuel tv pk.1 = .ok rt)
    (h5 : isMapping rt = false) :
    (kvs.length = 1 →
      DeviceConfigResolver.resolve_imports fs base (fuel + 1) (.obj kvs) currentFile = .ok rt) ∧
    (kvs.length ≠ 1 →
      DeviceConfigResolver.resolve_imports fs base (fuel + 1) (.obj kvs) currentFile =
        .error .mergeConflict) := by
  constructor <;> intro hlen <;>
    cases rt <;> simp [isMapping] at h5 <;>
    simp [DeviceConfigResolver.resolve_imports, h1, h2, h3, h4, hlen,
      Bind.bind, Except.bind, pure, Except.pure]

/-- Claim C6 witness: importing the string-valued template key `s`
alongside a sibling key raises the merge conflict, at a concrete input. -/
theorem C6_nonmapping_template_witness :
    DeviceConfigResolver.resolve_imports exampleFS ["base"] 3
      (.obj [("$import", .str "~/templates/t.json#s"), ("x", .num 1)])
      ["base", "0x027a", "dev.json"] = .error .mergeConflict := by
  have h := C6_nonmapping_template exampleFS ["base"] 2
    [("$import", .str "~/templates/t.json#s"), ("x", .num 1)]
    ["base", "0x027a", "dev.json"] "~/templates/t.json#s"
    (["base", "templates", "t.json"], "s") (.str "hello") (.str "hello")
    rfl rfl rfl rfl rfl
  exact h.2 (by decide)

theorem hasKeyKV_append (l1 l2 : List (String × Json)) (k : String) :
    hasKeyKV (l1 ++ l2) k = (hasKeyKV l1 k || hasKeyKV l2 k) := by
  induction l1 with
  | nil => simp [hasKeyKV, lookupKV]
  | cons p rest ih =>
    cases p with
    | mk k1 v1 =>
      by_cases h : k1 = k
      · simp [hasKeyKV, lookupKV, h]
      · simp only [List.cons_append]
        simp [hasKeyKV, lookupKV, h] at ih ⊢
        exact ih

theorem withMetadata_append (resolved : List (String × Json)) (v lu : Json)
    (h1 : hasKeyKV resolved "vers" = false)
    (h2 : hasKeyKV resolved "last_update" = false) :
    withMetadata resolved v lu = resolved ++ [("vers", v), ("last_update", lu)] := by
  unfold withMetadata
  rw [setKV_append _ _ _ h1]
  have hx : hasKeyKV (resolved ++ [("vers", v)]) "last_update" = false := by
    rw [hasKeyKV_append, h2]
    simp [hasKeyKV, lookupKV]
  rw [setKV_append _ _ _ hx]
  simp

/--
Claim C2: the reconciler's version discipline.  With no previous artifact
the stored version is 1.  With a previous artifact semantically equal to
the comparison copy (previous `vers` and `last_update` spliced in), nothing
is written.  With a semantically different artifact, when the write
proceeds (silent mode, or the user confirms), the stored version is the
previous version plus exactly one.
-/
theorem C2_version_reconciliation :
    (∀ (resolved : List (String × Json)) (now : String) (sil conf : Bool),
      writtenVersion (process_device resolved none now sil conf) = some 1) ∧
    (∀ (resolved ekvs : List (String × Json)) (now : String) (sil conf : Bool),
      JsonDiffer.json_objects_equal (.obj ekvs)
        (.obj (withMetadata resolved ((lookupKV ekvs "vers").getD (.num 1))
          ((lookupKV ekvs "last_update").getD (.str now)))) = true →
      process_device resolved (some (.obj ekvs)) now sil conf = .ok .unchanged) ∧
    (∀ (resolved ekvs : List (String × Json)) (now : String) (sil conf : Bool) (n : Int),
      lookupKV ekvs "vers" = some (.num n) →
      JsonDiffer.json_objects_equal (.obj ekvs)
        (.obj (withMetadata resolved (.num n)
          ((lookupKV ekvs "last_update").getD (.str now)))) = false →
      (sil || conf) = true →
      writtenVersion (process_device resolved (some (.obj ekvs)) now sil conf) = some (n + 1) ∧
      writtenDoc (process_device resolved (some (.obj ekvs)) now sil conf) =
        some (.obj (withMetadata resolved (.num (n + 1)) (.str now)))) := by
  refine ⟨?_, ?_, ?_⟩
  · intro resolved now sil conf
    simp [process_device, writtenVersion]
  · intro resolved ekvs now sil conf h
    simp [process_device, h]
  · intro resolved ekvs now sil conf n hv hne hgo
    simp [process_device, hv, hne, hgo, writtenVersion, writtenDoc]

/-- Claim C2 witness: a stored artifact at version 3 whose content differs
from the new resolution is rewritten, in silent mode, at exactly version 4. -/
theorem C2_version_reconciliation_witness :
    writtenVersion (process_device [("x", .num 2)]
      (some (.obj [("x", .num 1), ("vers", .num 3), ("last_update", .str "T0")]))
      "T1" true false) = some 4 := by
  have h := C2_version_reconciliation.2.2 [("x", .num 2)]
    [("x", .num 1), ("vers", .num 3), ("last_update", .str "T0")]
    "T1" true false 3 rfl rfl rfl
  exact h.1

/--
Claim C10: a previously persisted artifact with no `vers` field is treated
as version 1 — a semantically equal new document reports no change and
writes nothing, and a semantically different one that proceeds to write
stores version 2.
-/
theorem C10_missing_vers_defaults_to_one :
    ∀ (resolved ekvs : List (String × Json)) (now : String) (sil conf : Bool),
      lookupKV ekvs "vers" = none →
      ((JsonDiffer.json_objects_equal (.obj ekvs)
          (.obj (withMetadata resolved (.num 1)
            ((lookupKV ekvs "last_update").getD (.str now)))) = true →
        process_device resolved (some (.obj ekvs)) now sil conf = .ok .unchanged) ∧
       (JsonDiffer.json_objects_equal (.obj ekvs)
          (.obj (withMetadata resolved (.num 1)
            ((lookupKV ekvs "last_update").getD (.str now)))) = false →
        (sil || conf) = true →
        writtenVersion (process_device resolved (some (.obj ekvs)) now sil conf) = some 2 ∧
        writtenDoc (process_device resolved (some (.obj ekvs)) now sil conf) =
          some (.obj (withMetadata resolved (.num 2) (.str now))))) := by
  intro resolved ekvs now sil conf hv
  constructor
  · intro h
    simp [process_device, hv, h]
  · intro hne hgo
    simp [process_device, hv, hne, hgo, writtenVersion, writtenDoc]

/-- Claim C10 witness: an artifact carrying no `vers`, semantically unequal
to the new resolution, is rewritten at version 2. -/
theorem C10_missing_vers_witness :
    writtenVersion (process_device [("x", .num 2)]
      (some (.obj [("x", .num 1)])) "T1" true false) = some 2 := by
  have h := C10_missing_vers_defaults_to_one [("x", .num 2)] [("x", .num 1)]
    "T1" true false rfl
  exact (h.2 rfl rfl).1

/--
Claim C3 counterexample: a successful first run writes the resolved tree
plus fields named `vers` and `last_update`; no top-level field named
`version` exists in the emitted document.
-/
theorem C3_field_name_counterexample :
    writtenDoc (process_device [("x", .num 5)] none "2025-01-01T00:00:00" true true) =
      some (.obj [("x", .num 5), ("vers", .num 1),
        ("last_update", .str "2025-01-01T00:00:00")]) ∧
    hasKeyKV [("x", .num 5), ("vers", .num 1),
      ("last_update", .str "2025-01-01T00:00:00")] "version" = false ∧
    hasKeyKV [("x", .num 5), ("vers", .num 1),
      ("last_update", .str "2025-01-01T00:00:00")] "vers" = true :=
  ⟨rfl, rfl, rfl⟩

/--
Claim C3 (amended): every document a successful run writes equals the fully
resolved tree plus exactly two injected top-level fields, named `vers` (an
integer that is 1 for a new artifact and the previous version plus one on
an update, hence ≥ 1 whenever the previous version was) and `last_update`
(the timestamp string), serialized by `json.dumps(..., indent=2)` (2-space
indentation) with a trailing newline.
-/
theorem C3_output_artifact_amended :
    (∀ (resolved : List (String × Json)) (now : String) (sil conf : Bool),
      hasKeyKV resolved "vers" = false →
      hasKeyKV resolved "last_update" = false →
      process_device resolved none now sil conf =
        .ok (.written
          (.obj (resolved ++ [("vers", .num 1), ("last_update", .str now)]))
          (pyDumpsInd 0 (.obj (resolved ++ [("vers", .num 1), ("last_update", .str now)])) ++ "\n")
          1) ∧ (1 : Int) ≤ 1) ∧
    (∀ (resolved ekvs : List (String × Json)) (now : String) (sil conf : Bool) (n : Int),
      hasKeyKV resolved "vers" = false →
      hasKeyKV resolved "last_update" = false →
      lookupKV ekvs "vers" = some (.num n) →
      1 ≤ n →
      JsonDiffer.json_objects_equal (.obj ekvs)
        (.obj (withMetadata resolved (.num n)
          ((lookupKV ekvs "last_update").getD (.str now)))) = false →
      (sil || conf) = true →
      process_device resolved (some (.obj ekvs)) now sil conf =
        .ok (.written
          (.obj (resolved ++ [("vers", .num (n + 1)), ("last_update", .str now)]))
          (pyDumpsInd 0 (.obj (resolved ++ [("vers", .num (n + 1)), ("last_update", .str now)])) ++ "\n")
          (n + 1)) ∧ 1 ≤ n + 1) := by
  constructor
  · intro resolved now sil conf h1 h2
    refine ⟨?_, le_refl 1⟩
    simp [process_device, withMetadata_append resolved _ _ h1 h2]
  · intro resolved ekvs now sil conf n h1 h2 hv hn hne hgo
    refine ⟨?_, by omega⟩
    rw [withMetadata_append resolved _ _ h1 h2] at hne
    simp [process_device, hv, hne, hgo, withMetadata_append resolved _ _ h1 h2]

/-- Claim C3 (amended) witness at a concrete run: the written artifact is
the resolved tree with `vers` and `last_update` appended. -/
theorem C3_output_artifact_witness :
    process_device [("x", .num 5)] none "2025-01-01T00:00:00" true true =
      .ok (.written
        (.obj ([("x", .num 5)] ++ [("vers", .num 1), ("last_update", .str "2025-01-01T00:00:00")]))
        (pyDumpsInd 0 (.obj ([("x", .num 5)] ++ [("vers", .num 1), ("last_update", .str "2025-01-01T00:00:00")])) ++ "\n")
        1) :=
  (C3_output_artifact_amended.1 [("x", .num 5)] "2025-01-01T00:00:00" true true rfl rfl).1

section NormalizationLemmas

/-- Strict key order on entries. -/
def entryLT (p q : String × Json) : Prop :=
  strLtB p.1 q.1 = true

theorem charsLtB_irrefl : ∀ a : List Char, charsLtB a a = false := by
  intro a
  induction a with
  | nil => rfl
  | cons c cs ih => simp [charsLtB, ih]

instance : IsAntisymm (String × Json) entryLT where
  antisymm p q hpq hqp := by
    exfalso
    have := strLtB_asymm p.1 q.1 hpq
    rw [hqp] at this
    cases this

theorem sortEntries_perm (l : List (String × Json)) :
    (sortEntries l).Perm l :=
  List.perm_insertionSort entryLE l

theorem sortEntries_sorted (l : List (String × Json)) :
    List.Sorted entryLE (sortEntries l) :=
  List.sorted_insertionSort entryLE l

theorem entryLT_of_entryLE_ne {p q : String × Json}
    (hle : entryLE p q) (hne : p.1 ≠ q.1) : entryLT p q := by
  unfold entryLE strLeB at hle
  unfold entryLT
  simp only [Bool.not_eq_true'] at hle
  rcases strLtB_trichot p.1 q.1 with h | h | h
  · exact h
  · exact absurd h hne
  · rw [h] at hle; cases hle

theorem pairwise_lt_of_sorted_nodup {l : List (String × Json)}
    (hnd : (keysOf l).Nodup) (hs : List.Sorted entryLE l) :
    List.Pairwise entryLT l := by
  have hne : List.Pairwise (fun p q : String × Json => p.1 ≠ q.1) l := by
    have := (List.pairwise_map (l := l) (f := Prod.fst)
      (R := fun a b : String => a ≠ b)).mp hnd
    exact this
  have hand := List.Pairwise.and hs hne
  exact hand.imp (fun h => entryLT_of_entryLE_ne h.1 h.2)

theorem lookup_eq_of_perm {l1 l2 : List (String × Json)}
    (hperm : l1.Perm l2) (hnd : (keysOf l1).Nodup) (k : String) :
    lookupKV l1 k = lookupKV l2 k := by
  have hnd2 : (keysOf l2).Nodup := ((hperm.map Prod.fst).nodup_iff).mp hnd
  cases h1 : lookupKV l1 k with
  | some v =>
    exact (lookupKV_eq_some_of_mem hnd2 (hperm.mem_iff.mp
      (mem_of_lookupKV_eq_some h1))).symm
  | none =>
    have hk : k ∉ keysOf l1 := (lookupKV_eq_none_iff l1 k).mp h1
    have hk2 : k ∉ keysOf l2 := fun hm =>
      hk (((hperm.map Prod.fst).mem_iff).mpr hm)
    exact ((lookupKV_eq_none_iff l2 k).mpr hk2).symm

theorem lookup_none_of_head_lt {k0 : String} {v0 : Json}
    {r : List (String × Json)}
    (hp : ∀ p ∈ r, entryLT (k0, v0) p) : lookupKV r k0 = none := by
  rw [lookupKV_eq_none_iff]
  intro hm
  obtain ⟨p, hpm, hpk⟩ := List.mem_map.mp hm
  have := hp p hpm
  unfold entryLT at this
  rw [hpk] at this
  rw [show strLtB k0 k0 = false from charsLtB_irrefl k0.data] at this
  cases this

theorem eq_of_sorted_lookupEq :
    ∀ (s1 s2 : List (String × Json)), List.Pairwise entryLT s1 →
      List.Pairwise entryLT s2 →
      (∀ k, lookupKV s1 k = lookupKV s2 k) → s1 = s2 := by
  intro s1
  induction s1 with
  | nil =>
    intro s2 _ _ hk
    cases s2 with
    | nil => rfl
    | cons p r2 =>
      exfalso
      have := hk p.1
      rw [show lookupKV (p :: r2) p.1 = some p.2 by
        cases p; simp [lookupKV]] at this
      cases this
  | cons p1 r1 ih =>
    intro s2 hp1 hp2 hk
    cases p1 with
    | mk k1 v1 =>
      cases s2 with
      | nil =>
        exfalso
        have := hk k1
        simp [lookupKV] at this
      | cons p2 r2 =>
        cases p2 with
        | mk k2 v2 =>
          have hpr1 := List.pairwise_cons.mp hp1
          have hpr2 := List.pairwise_cons.mp hp2
          have hkeq : k1 = k2 ∧ v1 = v2 := by
            by_cases he : k2 = k1
            · subst he
              have := hk k2
              simp [lookupKV] at this
              exact ⟨rfl, this⟩
            · exfalso
              have h1 := hk k1
              simp [lookupKV, he] at h1
              have h2 := hk k2
              simp [lookupKV, Ne.symm he] at h2
              have hm1 : (k1, v1) ∈ r2 := mem_of_lookupKV_eq_some h1.symm
              have hm2 : (k2, v2) ∈ r1 := mem_of_lookupKV_eq_some h2
              have hlt1 := hpr2.1 _ hm1
              have hlt2 := hpr1.1 _ hm2
              unfold entryLT at hlt1 hlt2
              have := strLtB_asymm _ _ hlt1
              rw [hlt2] at this
              cases this
          obtain ⟨hke, hve⟩ := hkeq
          subst hke
          subst hve
          have htail : r1 = r2 := by
            apply ih r2 hpr1.2 hpr2.2
            intro k
            by_cases he : k = k1
            · subst he
              rw [lookup_none_of_head_lt hpr1.1, lookup_none_of_head_lt hpr2.1]
            · have := hk k
              simp [lookupKV, Ne.symm he] at this
              exact this
          rw [htail]

theorem keysNodupB_iff (l : List (String × Json)) :
    keysNodupB l = true ↔ (keysOf l).Nodup := by
  induction l with
  | nil => simp [keysNodupB, keysOf]
  | cons p rest ih =>
    cases p with
    | mk k v =>
      simp only [keysNodupB, Bool.and_eq_true, Bool.not_eq_true']
      rw [hasKeyKV_false_iff, ih]
      show k ∉ keysOf rest ∧ (keysOf rest).Nodup ↔ (k :: keysOf rest).Nodup
      simp [List.nodup_cons]

theorem wfB_obj {l : List (String × Json)} (h : wfB (.obj l) = true) :
    (keysOf l).Nodup ∧ wfEntriesB l = true := by
  simp only [wfB, Bool.and_eq_true] at h
  exact ⟨(keysNodupB_iff l).mp h.1, h.2⟩

theorem wfEntriesB_mem {l : List (String × Json)} (h : wfEntriesB l = true) :
    ∀ p ∈ l, wfB p.2 = true := by
  induction l with
  | nil => intro p hp; cases hp
  | cons q rest ih =>
    cases q with
    | mk k v =>
      simp only [wfEntriesB, Bool.and_eq_true] at h
      intro p hp
      rcases List.mem_cons.mp hp with hp | hp
      · subst hp; exact h.1
      · exact ih h.2 p hp

theorem wfListB_mem {l : List Json} (h : wfListB l = true) :
    ∀ x ∈ l, wfB x = true := by
  induction l with
  | nil => intro x hx; cases hx
  | cons y rest ih =>
    simp only [wfListB, Bool.and_eq_true] at h
    intro x hx
    rcases List.mem_cons.mp hx with hx | hx
    · subst hx; exact h.1
    · exact ih h.2 x hx

theorem keysOf_normKVs (l : List (String × Json)) :
    keysOf (JsonDiffer.normalize_json_entries l) = keysOf l := by
  induction l with
  | nil => rfl
  | cons p rest ih =>
    cases p with
    | mk k v => simp [JsonDiffer.normalize_json_entries, keysOf] at ih ⊢; exact ih

theorem lookupKV_normKVs (l : List (String × Json)) (k : String) :
    lookupKV (JsonDiffer.normalize_json_entries l) k =
      (lookupKV l k).map JsonDiffer.normalize_json := by
  induction l with
  | nil => rfl
  | cons p rest ih =>
    cases p with
    | mk k1 v =>
      by_cases h : k1 = k
      · simp [JsonDiffer.normalize_json_entries, lookupKV, h]
      · simp [JsonDiffer.normalize_json_entries, lookupKV, h, ih]

theorem semEqSubB_iff (l other : List (String × Json)) :
    semEqSubB l other = true ↔
      ∀ p ∈ l, ∀ w, lookupKV other p.1 = some w → semEqB p.2 w = true := by
  induction l with
  | nil => simp [semEqSubB]
  | cons p rest ih =>
    cases p with
    | mk k v =>
      simp only [semEqSubB, Bool.and_eq_true, ih]
      constructor
      · rintro ⟨h1, h2⟩ q hq w hw
        rcases List.mem_cons.mp hq with hq | hq
        · subst hq
          rw [hw] at h1
          exact h1
        · exact h2 q hq w hw
      · intro h
        constructor
        · cases hl : lookupKV other k with
          | none => rfl
          | some w => exact h (k, v) (List.mem_cons_self _ _) w hl
        · intro q hq w hw
          exact h q (List.mem_cons_of_mem _ hq) w hw

theorem normList_eq_iff :
    ∀ (xs ys : List Json),
      (∀ x ∈ xs, ∀ b, wfB x = true → wfB b = true →
        (JsonDiffer.normalize_json x = JsonDiffer.normalize_json b ↔ semEqB x b = true)) →
      wfListB xs = true → wfListB ys = true →
      (JsonDiffer.normalize_json_list xs = JsonDiffer.normalize_json_list ys ↔
        semEqListB xs ys = true) := by
  intro xs
  induction xs with
  | nil =>
    intro ys _ _ _
    cases ys <;> simp [JsonDiffer.normalize_json_list, semEqListB]
  | cons x rest ih =>
    intro ys hih hwx hwy
    cases ys with
    | nil => simp [JsonDiffer.normalize_json_list, semEqListB]
    | cons y rest2 =>
      simp only [wfListB, Bool.and_eq_true] at hwx hwy
      simp only [JsonDiffer.normalize_json_list, List.cons.injEq, semEqListB,
        Bool.and_eq_true]
      rw [hih x (List.mem_cons_self _ _) y hwx.1 hwy.1]
      rw [ih rest2 (fun z hz => hih z (List.mem_cons_of_mem _ hz)) hwx.2 hwy.2]

/-- The heart of claim C9: on well-formed values, equality of the
normalized forms coincides with the spec's "agree up to reordering of
Mapping keys at every depth" relation. -/
theorem normalize_eq_iff_semEq :
    ∀ a b : Json, wfB a = true → wfB b = true →
      (JsonDiffer.normalize_json a = JsonDiffer.normalize_json b ↔ semEqB a b = true) := by
  intro a
  induction a using Json.indOn with
  | h0 =>
    intro b _ _
    cases b <;> simp [JsonDiffer.normalize_json, semEqB]
  | h1 x =>
    intro b _ _
    cases b <;> simp [JsonDiffer.normalize_json, semEqB]
  | h2 x =>
    intro b _ _
    cases b <;> simp [JsonDiffer.normalize_json, semEqB]
  | h3 x =>
    intro b _ _
    cases b <;> simp [JsonDiffer.normalize_json, semEqB]
  | h4 xs ih =>
    intro b ha hb
    cases b with
    | arr ys =>
      simp only [JsonDiffer.normalize_json, Json.arr.injEq, semEqB]
      exact normList_eq_iff xs ys ih (by simpa [wfB] using ha) (by simpa [wfB] using hb)
    | null => simp [JsonDiffer.normalize_json, semEqB]
    | bool x => simp [JsonDiffer.normalize_json, semEqB]
    | num x => simp [JsonDiffer.normalize_json, semEqB]
    | str x => simp [JsonDiffer.normalize_json, semEqB]
    | obj l => simp [JsonDiffer.normalize_json, semEqB]
  | h5 l1 ih =>
    intro b ha hb
    cases b with
    | null => simp [JsonDiffer.normalize_json, semEqB]
    | bool x => simp [JsonDiffer.normalize_json, semEqB]
    | num x => simp [JsonDiffer.normalize_json, semEqB]
    | str x => simp [JsonDiffer.normalize_json, semEqB]
    | arr l => simp [JsonDiffer.normalize_json, semEqB]
    | obj l2 =>
      obtain ⟨hnd1, hwf1⟩ := wfB_obj ha
      obtain ⟨hnd2, hwf2⟩ := wfB_obj hb
      have hndX : (keysOf (JsonDiffer.normalize_json_entries l1)).Nodup := by
        rw [keysOf_normKVs]; exact hnd1
      have hndY : (keysOf (JsonDiffer.normalize_json_entries l2)).Nodup := by
        rw [keysOf_normKVs]; exact hnd2
      simp only [JsonDiffer.normalize_json, Json.obj.injEq, semEqB,
        Bool.and_eq_true, List.all_eq_true]
      constructor
      · intro hsort
        have hlk : ∀ k, lookupKV (JsonDiffer.normalize_json_entries l1) k =
            lookupKV (JsonDiffer.normalize_json_entries l2) k := by
          intro k
          calc lookupKV (JsonDiffer.normalize_json_entries l1) k
              = lookupKV (sortEntries (JsonDiffer.normalize_json_entries l1)) k :=
                lookup_eq_of_perm (sortEntries_perm _).symm hndX k
            _ = lookupKV (sortEntries (JsonDiffer.normalize_json_entries l2)) k := by
                rw [hsort]
            _ = lookupKV (JsonDiffer.normalize_json_entries l2) k :=
                (lookup_eq_of_perm (sortEntries_perm _).symm hndY k).symm
        refine ⟨⟨?_, ?_⟩, ?_⟩
        · rw [semEqSubB_iff]
          rintro ⟨k, v⟩ hp w hw
          have hl1 : lookupKV l1 k = some v := lookupKV_eq_some_of_mem hnd1 hp
          have hkk := hlk k
          rw [lookupKV_normKVs, lookupKV_normKVs, hl1, hw] at hkk
          simp at hkk
          exact (ih (k, v) hp w (wfEntriesB_mem hwf1 _ hp)
            (wfEntriesB_mem hwf2 _ (mem_of_lookupKV_eq_some hw))).mp hkk
        · rintro ⟨k, v⟩ hp
          have hl1 : lookupKV l1 k = some v := lookupKV_eq_some_of_mem hnd1 hp
          have hkk := hlk k
          rw [lookupKV_normKVs, lookupKV_normKVs, hl1] at hkk
          cases hl2 : lookupKV l2 k with
          | none => rw [hl2] at hkk; simp at hkk
          | some w => simp [hasKeyKV, hl2]
        · rintro ⟨k, w⟩ hp
          have hl2 : lookupKV l2 k = some w := lookupKV_eq_some_of_mem hnd2 hp
          have hkk := hlk k
          rw [lookupKV_normKVs, lookupKV_normKVs, hl2] at hkk
          cases hl1 : lookupKV l1 k with
          | none => rw [hl1] at hkk; simp at hkk
          | some v => simp [hasKeyKV, hl1]
      · rintro ⟨⟨hsub, hall12⟩, hall21⟩
        have hlk : ∀ k, lookupKV (JsonDiffer.normalize_json_entries l1) k =
            lookupKV (JsonDiffer.normalize_json_entries l2) k := by
          intro k
          rw [lookupKV_normKVs, lookupKV_normKVs]
          cases hl1 : lookupKV l1 k with
          | some v =>
            have hp : (k, v) ∈ l1 := mem_of_lookupKV_eq_some hl1
            have hk2 := hall12 (k, v) hp
            cases hl2 : lookupKV l2 k with
            | none =>
              exfalso
              unfold hasKeyKV at hk2
              rw [hl2] at hk2
              cases hk2
            | some w =>
              have hse : semEqB v w = true :=
                (semEqSubB_iff l1 l2).mp hsub (k, v) hp w hl2
              have hnv : JsonDiffer.normalize_json v = JsonDiffer.normalize_json w :=
                (ih (k, v) hp w (wfEntriesB_mem hwf1 _ hp)
                  (wfEntriesB_mem hwf2 _ (mem_of_lookupKV_eq_some hl2))).mpr hse
              simp [hnv]
          | none =>
            cases hl2 : lookupKV l2 k with
            | none => rfl
            | some w =>
              exfalso
              have hp : (k, w) ∈ l2 := mem_of_lookupKV_eq_some hl2
              have hk1 := hall21 (k, w) hp
              unfold hasKeyKV at hk1
              rw [hl1] at hk1
              cases hk1
        have hndSX : (keysOf (sortEntries (JsonDiffer.normalize_json_entries l1))).Nodup :=
          (((sortEntries_perm _).map Prod.fst).nodup_iff).mpr hndX
        have hndSY : (keysOf (sortEntries (JsonDiffer.normalize_json_entries l2))).Nodup :=
          (((sortEntries_perm _).map Prod.fst).nodup_iff).mpr hndY
        apply eq_of_sorted_lookupEq
        · exact pairwise_lt_of_sorted_nodup hndSX (sortEntries_sorted _)
        · exact pairwise_lt_of_sorted_nodup hndSY (sortEntries_sorted _)
        · intro k
          calc lookupKV (sortEntries (JsonDiffer.normalize_json_entries l1)) k
              = lookupKV (JsonDiffer.normalize_json_entries l1) k :=
                lookup_eq_of_perm (sortEntries_perm _) hndSX k
            _ = lookupKV (JsonDiffer.normalize_json_entries l2) k := hlk k
            _ = lookupKV (sortEntries (JsonDiffer.normalize_json_entries l2)) k :=
                (lookup_eq_of_perm (sortEntries_perm _) hndSY k).symm

end NormalizationLemmas

/--
Claim C9: two well-formed JSON-like values are semantically equal — their
normalized forms structurally identical, which is what
`json_objects_equal` decides — exactly when they agree up to reordering of
Mapping keys at every depth (`semEqB`, built from the spec's words):
normalization sorts Mapping keys, preserves Sequence order and leaves
scalars unchanged; concretely the two spec examples hold.
-/
theorem C9_semantic_equality :
    (∀ a b : Json, wfB a = true → wfB b = true →
      (JsonDiffer.json_objects_equal a b = true ↔ semEqB a b = true)) ∧
    JsonDiffer.json_objects_equal (.obj [("a", .num 1), ("b", .num 2)])
      (.obj [("b", .num 2), ("a", .num 1)]) = true ∧
    JsonDiffer.json_objects_equal (.arr [.num 1, .num 2])
      (.arr [.num 2, .num 1]) = false := by
  refine ⟨?_, rfl, rfl⟩
  intro a b ha hb
  rw [show JsonDiffer.json_objects_equal a b =
    jeq (JsonDiffer.normalize_json a) (JsonDiffer.normalize_json b) from rfl]
  rw [jeq_iff]
  exact normalize_eq_iff_semEq a b ha hb

/-- Claim C9 witness: the spec's key-reordered mappings are semantically
equal, through the equivalence at a concrete well-formed pair. -/
theorem C9_semantic_equality_witness :
    semEqB (.obj [("a", .num 1), ("b", .num 2)])
      (.obj [("b", .num 2), ("a", .num 1)]) = true :=
  (C9_semantic_equality.1 (.obj [("a", .num 1), ("b", .num 2)])
    (.obj [("b", .num 2), ("a", .num 1)]) rfl rfl).mp rfl

end ZwaveResolve
